import Mathlib

/-!
# llvm-ads: generation of an Ada specification from LLVM bitcode

A shallow embedding of the translation engine of `src/llvm-ads.cpp`
(`printSanitized`, `toName`, `printType`, `printArrType`, `printStructType`,
`printTypes`, `printArgument`, `printFunction`, `printPrimitiveTypes`,
`printModule` and the unit name that `main` computes) and the properties of it
that the specification states.

Conventions of the embedding.

* A `std::string` / `StringRef` is a Lean `String`; its `char` units are the
  `Char`s of `String.data`.  `size_t` values are natural numbers and
  `std::string::npos` is `2 ^ 64 - 1`.
* A `raw_ostream &Out` parameter becomes the returned text: a printing
  function returns `some text` when it runs to its end having written `text`,
  and `none` when it ends abnormally before that (an exception thrown by
  `std::string::substr`, or the `assert(false)` of an unmanaged type).
* An `llvm::Type *` is a value of the inductive type `Ty`, so type graphs are
  finite trees: a named struct appears with its body wherever it is mentioned.
* A struct type that contains a pointer to itself is not a tree.  For such
  types the printers are embedded a second time (`toNameIn`, `printTypeIn`,
  `printStructTypeIn`), over a table that gives the body of each named struct
  and with a bound on the depth of the calls; on every tree the two embeddings
  agree (`printers_return_on_unfoldings`).
-/

namespace LlvmAds

/-! ## Data model -/

/-- The LLVM types, one constructor per `Type::TypeID` of the LLVM releases
that still have typed pointers (`getPointerElementType`). -/
inductive Ty where
  | half
  | bfloat
  | float
  | double
  | x86_fp80
  | fp128
  | ppc_fp128
  | void
  | label
  | metadata
  | x86_mmx
  | x86_amx
  | token
  | integer (bitWidth : Nat)
  | function (ret : Ty) (params : List Ty)
  | pointer (elem : Ty)
  | struct (name : String) (literal : Bool) (opaqueBody : Bool) (elems : List Ty)
  | array (elem : Ty) (numElements : Nat)
  | fixedVector (elem : Ty) (numElements : Nat)
  | scalableVector (elem : Ty) (minElements : Nat)
  deriving Repr

/-- `StructType::hasName()`: the struct has a symbol table entry.  Literal
structs never have one, identified structs have one when their name is not
empty. -/
def Ty.hasName : Ty → Bool
  | .struct name literal _ _ => !literal && decide (name ≠ "")
  | _ => false

/-- `T->getTypeID() == Type::StructTyID`. -/
def Ty.isStructTy : Ty → Bool
  | .struct _ _ _ _ => true
  | _ => false

/-- `T->getTypeID() == Type::ArrayTyID`. -/
def Ty.isArrayTy : Ty → Bool
  | .array _ _ => true
  | _ => false

/-- `T->getTypeID() == Type::VoidTyID`. -/
def Ty.isVoidTy : Ty → Bool
  | .void => true
  | _ => false

/-! ## `printSanitized` (lines 68-90) -/

/-- `std::string::npos`, which is also the `-1` passed to `substr` as a
`size_t`. -/
def npos : Nat := 2 ^ 64 - 1

/-- The `switch` of lines 73-79 applied at position `i` of `s`. -/
def replaceAt (s : List Char) (i : Nat) : List Char :=
  match s[i]? with
  | some c => if c = '.' ∨ c = ':' ∨ c = '/' ∨ c = '-' then s.set i '_' else s
  | none => s

/-- The loop of lines 72-80: `for (size_t i = 0; i < s.length(); ++i)`. -/
def replaceLoop (s : List Char) : List Char :=
  (List.range s.length).foldl replaceAt s

/-- `std::string::find_first_not_of(chars)`, searching the rest `s` of a string
whose first position is `pos`: the first position holding a character that is
not in `chars`, and `npos` when there is none. -/
def find_first_not_of (chars : List Char) : List Char → Nat → Nat
  | [], _ => npos
  | c :: cs, pos => if c ∈ chars then find_first_not_of chars cs (pos + 1) else pos

/-- `std::string::substr(pos, n)`: throws `std::out_of_range` when
`pos > size()`, and is otherwise the characters `[pos, pos + min(n, size() - pos))`. -/
def substr (s : List Char) (pos n : Nat) : Option (List Char) :=
  if pos > s.length then none else some ((s.drop pos).take n)

/-- `printSanitized(S, Out)`: the text written to `Out`. -/
def printSanitized (S : String) : Option String :=
  let s := replaceLoop S.data
  let offset := find_first_not_of "_".data s 0
  match substr s offset npos with
  | none => none
  | some s2 => if s2 ≠ "in".data then some (String.mk s2) else some "inn"

/-! ## `toName` (lines 92-140) -/

mutual
/-- `toName(t)`; `none` is the `default:` branch (`assert(false)`). -/
def toName : Ty → Option String
  | .void => some "void"
  | .half => some "half"
  | .bfloat => some "bfloat"
  | .float => some "float"
  | .double => some "double"
  | .x86_fp80 => some "x86_fp80"
  | .fp128 => some "fp128"
  | .ppc_fp128 => some "ppc_fp128"
  | .label => some "label"
  | .metadata => some "metadata"
  | .x86_mmx => some "x86_mmx"
  | .x86_amx => some "x86_amx"
  | .token => some "token"
  | .integer bitWidth => some ("i" ++ toString bitWidth)
  | .pointer elem => (toName elem).map (· ++ "ptr")
  | .array elem _ => (toName elem).map (· ++ "arr")
  | .struct _ _ _ elems => toNameLoop elems ""
  | .function _ _ => none
  | .fixedVector _ _ => none
  | .scalableVector _ _ => none
/-- The loop of lines 129-131 over the contained types that are left, `result`
being the text accumulated so far. -/
def toNameLoop : List Ty → String → Option String
  | [], result => some result
  | t :: ts, result =>
    match toName t with
    | none => none
    | some s => toNameLoop ts (result ++ s)
end

/-! ## `printType` (lines 142-192) -/

/-- `printType(t, Out)`: the text written to `Out`. -/
def printType : Ty → Option String
  | .void => toName .void
  | .half => toName .half
  | .bfloat => toName .bfloat
  | .float => toName .float
  | .double => toName .double
  | .x86_fp80 => toName .x86_fp80
  | .fp128 => toName .fp128
  | .ppc_fp128 => toName .ppc_fp128
  | .label => toName .label
  | .metadata => toName .metadata
  | .x86_mmx => toName .x86_mmx
  | .x86_amx => toName .x86_amx
  | .token => toName .token
  | .integer bitWidth => toName (.integer bitWidth)
  | .pointer elem => (printType elem).map ("access " ++ ·)
  | .array elem numElements =>
    (printType elem).map fun inner =>
      "array "
        ++ (if numElements > 0 then "(1.." ++ toString numElements ++ ")"
            else "(Integer range <>)")
        ++ " of " ++ inner
  | .struct name literal opaqueBody elems =>
    if literal = false ∧ name ≠ "" then printSanitized name
    else toName (.struct name literal opaqueBody elems)
  | .function _ _ => none
  | .fixedVector _ _ => none
  | .scalableVector _ _ => none

/-- `printArrType(ATy, Out)` (lines 194-198). -/
def printArrType (ATy : Ty) : Option String :=
  match toName ATy with
  | none => none
  | some n =>
    match printType ATy with
    | none => none
    | some t => some ("type " ++ n ++ " is " ++ t ++ ";")

/-! ## `printStructType` (lines 200-252) -/

/-- The loop `while (T->getTypeID() == Type::PointerTyID) T = T->getPointerElementType();`
(lines 207-209): the type `T` it ends with. -/
def stripPointers : Ty → Ty
  | .pointer elem => stripPointers elem
  | T => T

/-- The text written by the loop of lines 236-239, which writes `access ` for
each pointer layer it removes. -/
def accessPrefix : Ty → String
  | .pointer elem => "access " ++ accessPrefix elem
  | _ => ""

/-- The call `((StructType *)*It)->hasName()` of line 211.  It is made on the
field type `*It` itself, not on the unwrapped `T`.  When `*It` is a struct this
is `hasName` of it.  When `*It` is a pointer the cast is wrong and the call
reads the `SymbolTableEntry` slot of an object that is not a `StructType`; the
source does not determine that value, so it is the parameter `slot`.  (In LLVM
the slot of a `PointerType` holds its pointee type, a non-null pointer, so the
call answers `true` there.) -/
def hasNameOfField (slot : Ty → Bool) : Ty → Bool
  | .struct name literal opaqueBody elems => (Ty.struct name literal opaqueBody elems).hasName
  | It => slot It

/-- The loop of lines 232-249 over the fields that are left, `x` being the
counter. -/
def printMembers : List Ty → Nat → Option String
  | [], _ => some ""
  | It :: rest, x =>
    match (if (stripPointers It).isArrayTy || (stripPointers It).isStructTy
           then toName (stripPointers It) else printType (stripPointers It)) with
    | none => none
    | some ty =>
      match printMembers rest (x + 1) with
      | none => none
      | some more =>
        some ("e" ++ toString x ++ " : " ++ accessPrefix It ++ ty ++ ";\n" ++ more)

mutual
/-- `printStructType(STy, Out)`: the text written to `Out`.  The C++ parameter
is a `StructType &`, so there is no text for another kind of type. -/
def printStructType (slot : Ty → Bool) : Ty → Option String
  | .struct name literal opaqueBody elems =>
    match printFieldDecls slot elems with
    | none => none
    | some decls =>
      match (if (Ty.struct name literal opaqueBody elems).hasName then printSanitized name
             else toName (.struct name literal opaqueBody elems)) with
      | none => none
      | some nm =>
        match printMembers elems 0 with
        | none => none
        | some members =>
          some (decls ++ "type " ++ nm ++ " is record\n" ++ members ++ "end record;")
  | _ => none
termination_by t => sizeOf t
decreasing_by
  simp only [Ty.struct.sizeOf_spec]; omega
/-- The loop of lines 204-218 over the fields that are left. -/
def printFieldDecls (slot : Ty → Bool) : List Ty → Option String
  | [] => some ""
  | It :: rest =>
    match (if (stripPointers It).isStructTy && !hasNameOfField slot It
           then (printStructType slot (stripPointers It)).map (· ++ "\n")
           else if (stripPointers It).isArrayTy
           then (printArrType (stripPointers It)).map (· ++ "\n")
           else some "") with
    | none => none
    | some decl => (printFieldDecls slot rest).map (decl ++ ·)
termination_by ts => sizeOf ts
decreasing_by
  · have hle : ∀ (n : Nat) (t : Ty), sizeOf t ≤ n → sizeOf (stripPointers t) ≤ sizeOf t := by
      intro n
      induction n with
      | zero =>
        intro t ht
        cases t with
        | pointer elem =>
          simp only [Ty.pointer.sizeOf_spec] at ht
          omega
        | _ => simp [stripPointers]
      | succ n ih =>
        intro t ht
        cases t with
        | pointer elem =>
          simp only [Ty.pointer.sizeOf_spec] at ht
          have := ih elem (by omega)
          simp only [stripPointers, Ty.pointer.sizeOf_spec]
          omega
        | _ => simp [stripPointers]
    have := hle (sizeOf It) It (Nat.le_refl _)
    simp only [List.cons.sizeOf_spec]; omega
  · simp only [List.cons.sizeOf_spec]; omega
end

/-! ## `printArgument` and `printFunction` (lines 281-317) -/

/-- A formal parameter as the module declares it: its name (empty when it has
none) and its type. -/
structure Param where
  name : String
  type : Ty
  deriving Repr

/-- An `llvm::Argument`: a parameter together with its position `getArgNo()`. -/
structure Argument where
  name : String
  type : Ty
  argNo : Nat
  deriving Repr

/-- An `llvm::Function` as far as the printer reads it. -/
structure Function where
  name : String
  returnType : Ty
  params : List Param
  deriving Repr

/-- The arguments for the parameters that are left, the first of them having
position `i`. -/
def argsFrom : List Param → Nat → List Argument
  | [], _ => []
  | p :: ps, i => { name := p.name, type := p.type, argNo := i } :: argsFrom ps (i + 1)

/-- `F.args()`: the arguments, numbered from zero. -/
def Function.args (F : Function) : List Argument := argsFrom F.params 0

/-- `printArgument(FA, Out)` (lines 281-290); `FA.hasName()` is that the name
is not empty. -/
def printArgument (FA : Argument) : Option String :=
  match (if FA.name ≠ "" then printSanitized FA.name else some ("a" ++ toString FA.argNo)) with
  | none => none
  | some nm =>
    match printType FA.type with
    | none => none
    | some ty => some (nm ++ " : " ++ ty)

/-- The loop of lines 304-308 over the arguments that are left. -/
def printArgs : List Argument → Option String
  | [] => some ""
  | Arg :: rest =>
    match printArgument Arg with
    | none => none
    | some a =>
      match printArgs rest with
      | none => none
      | some more => some ((if Arg.argNo > 0 then "; " else "") ++ a ++ more)

/-- `printFunction(F, Out)` (lines 292-317): the text written to `Out`. -/
def printFunction (F : Function) : Option String :=
  match printSanitized F.name with
  | none => none
  | some nm =>
    match (if F.params.length > 0 then (printArgs F.args).map (fun a => " (" ++ a ++ ")")
           else some "") with
    | none => none
    | some ps =>
      match (if F.returnType.isVoidTy then some ""
             else (toName F.returnType).map (" return " ++ ·)) with
      | none => none
      | some ret =>
        some ((if F.returnType.isVoidTy then "procedure" else "function") ++ " " ++ nm ++ ps
          ++ ret ++ " with Import, External_Name => \"" ++ F.name ++ "\";")

/-! ## `printTypes`, `printPrimitiveTypes` and `printModule` (lines 254-368) -/

/-- An `llvm::Module` as far as the printer reads it: its source file name,
the struct types that `TypeFinder::run(M, false)` reports, in its order, its
functions, and its global variables (name and type), which `printModule` does
not read. -/
structure Module where
  sourceFileName : String
  structTypes : List Ty
  functions : List Function
  globals : List (String × Ty)

/-- `STy->isLiteral()`. -/
def Ty.isLiteral : Ty → Bool
  | .struct _ literal _ _ => literal
  | _ => false

/-- `STy->isOpaque()`. -/
def Ty.isOpaque : Ty → Bool
  | .struct _ _ opaqueBody _ => opaqueBody
  | _ => false

/-- The loop of lines 258-268 over the struct types that are left. -/
def printTypesLoop (slot : Ty → Bool) : List Ty → Option String
  | [] => some ""
  | STy :: rest =>
    if STy.isLiteral then printTypesLoop slot rest
    else if STy.isOpaque then printTypesLoop slot rest
    else
      match printStructType slot STy with
      | none => none
      | some decl =>
        match printTypesLoop slot rest with
        | none => none
        | some more => some (decl ++ "\n" ++ more)

/-- `printTypes(M, Out)` (lines 254-269). -/
def printTypes (slot : Ty → Bool) (M : Module) : Option String :=
  printTypesLoop slot M.structTypes

/-- The texts of the ten output statements of `printPrimitiveTypes`
(lines 320-329), in order. -/
def primitiveLines : List String :=
  ["subtype i1 is Interfaces.C.c_bool;\n",
   "subtype i8 is Interfaces.C.char;\n",
   "subtype u8 is Interfaces.C.unsigned_char;\n",
   "subtype i16 is Interfaces.C.short;\n",
   "subtype u16 is Interfaces.C.unsigned_short;\n",
   "subtype i32 is Interfaces.C.int;\n",
   "subtype u32 is Interfaces.C.unsigned;\n",
   "subtype i64 is Interfaces.C.long;\n",
   "subtype u64 is Interfaces.C.unsigned_long;\n",
   "subtype double is Interfaces.C.double;\n"]

/-- `printPrimitiveTypes(Out)` (lines 319-330): the text written to `Out`. -/
def printPrimitiveTypes : String := String.join primitiveLines

/-- `printWiths(Out)` (line 332). -/
def printWiths : String := "with Interfaces.C;\n"

/-- The loop of lines 357-360 over the functions that are left. -/
def printFunctionsLoop : List Function → Option String
  | [] => some ""
  | F :: rest =>
    match printFunction F with
    | none => none
    | some decl =>
      match printFunctionsLoop rest with
      | none => none
      | some more => some (decl ++ "\n" ++ more)

/-- `printModule(M, PackageName, Out)` (lines 334-368): the text written to
`Out`. -/
def printModule (slot : Ty → Bool) (M : Module) (PackageName : String) : Option String :=
  match printTypes slot M with
  | none => none
  | some types =>
    match printFunctionsLoop M.functions with
    | none => none
    | some functions =>
      some ((if M.sourceFileName ≠ "" then "-- Generated from " ++ M.sourceFileName ++ "\n"
             else "")
        ++ printWiths ++ "package " ++ PackageName ++ " is\n" ++ printPrimitiveTypes
        ++ types ++ "\n-- functions\n" ++ functions ++ "end " ++ PackageName ++ ";")

/-! ## The unit name computed by `main` (lines 412-417) -/

/-- The scan behind `std::string::find_last_of(c)`: `s` is the rest of the
string, `pos` the position of its first character and `last` the last
position found so far. -/
def find_last_of_from (c : Char) : List Char → Nat → Nat → Nat
  | [], _, last => last
  | d :: ds, pos, last => find_last_of_from c ds (pos + 1) (if d = c then pos else last)

/-- `OutputFilename.find_last_of(c, -1)`: the last position holding `c`, and
`npos` when there is none. -/
def find_last_of (s : List Char) (c : Char) : Nat := find_last_of_from c s 0 npos

/-- Addition of `size_t` values. -/
def addSize (a b : Nat) : Nat := (a + b) % 2 ^ 64

/-- Subtraction of `size_t` values. -/
def subSize (a b : Nat) : Nat := (a + 2 ^ 64 - b % 2 ^ 64) % 2 ^ 64

/-- The condition of `assert(last_dot > last_slash)` (line 414). -/
def stemAssertion (OutputFilename : String) : Bool :=
  decide (find_last_of OutputFilename.data '.' > find_last_of OutputFilename.data '/')

/-- The second argument of `printModule` (line 416):
`OutputFilename.substr(last_slash + 1, last_dot - last_slash - 1)`, as the
program computes it when the assertion of line 414 is compiled out. -/
def unitName (OutputFilename : String) : Option String :=
  let last_slash := find_last_of OutputFilename.data '/'
  let last_dot := find_last_of OutputFilename.data '.'
  (substr OutputFilename.data (addSize last_slash 1)
    (subSize (subSize last_dot last_slash) 1)).map String.mk

/-! ## The printers on a context whose struct types may refer to themselves

In an `LLVMContext` a struct type with a name is one object, kept in the
symbol table of the context under its name, and every mention of it is that
object.  Below, a `StructTable` gives the element types of the struct of each
name, and a struct node of `Ty` that has a name stands for the struct of that
name: its element types are read from the table and the `elems` of the node
are not read.  A struct can so contain a pointer to itself.  The calls of the
C++ functions can then go on without end, so each function takes `fuel`, a
bound on the depth of the calls, and answers `Outcome.running` when a call
is not over within that bound. -/

/-- What a call has done within its fuel. -/
inductive Outcome where
  | running
  | aborted
  | wrote (text : String)
  deriving DecidableEq, Repr

/-- Sequencing: what follows a call happens only when the call has returned. -/
def Outcome.bind : Outcome → (String → Outcome) → Outcome
  | .running, _ => .running
  | .aborted, _ => .aborted
  | .wrote text, next => next text

/-- The outcome of a function that cannot run on without end. -/
def Outcome.ofOption : Option String → Outcome
  | none => .aborted
  | some text => .wrote text

/-- The element types of the struct of each name. -/
abbrev StructTable := String → List Ty

/-- The contained types `getContainedType(i)`, `element_begin()` ..
`element_end()` of a struct type. -/
def elementsOf (tbl : StructTable) : Ty → List Ty
  | .struct name literal opaqueBody elems =>
    if (Ty.struct name literal opaqueBody elems).hasName then tbl name else elems
  | _ => []

/-- The loop of lines 129-131, `call` being the recursive call of `toName`. -/
def toNameLoopIn (call : Ty → Outcome) : List Ty → String → Outcome
  | [], result => .wrote result
  | t :: ts, result => (call t).bind fun s => toNameLoopIn call ts (result ++ s)

/-- `toName(t)` (lines 92-140) with calls nested at most `fuel` deep. -/
def toNameIn (tbl : StructTable) : Nat → Ty → Outcome
  | 0, _ => .running
  | _ + 1, .void => .wrote "void"
  | _ + 1, .half => .wrote "half"
  | _ + 1, .bfloat => .wrote "bfloat"
  | _ + 1, .float => .wrote "float"
  | _ + 1, .double => .wrote "double"
  | _ + 1, .x86_fp80 => .wrote "x86_fp80"
  | _ + 1, .fp128 => .wrote "fp128"
  | _ + 1, .ppc_fp128 => .wrote "ppc_fp128"
  | _ + 1, .label => .wrote "label"
  | _ + 1, .metadata => .wrote "metadata"
  | _ + 1, .x86_mmx => .wrote "x86_mmx"
  | _ + 1, .x86_amx => .wrote "x86_amx"
  | _ + 1, .token => .wrote "token"
  | _ + 1, .integer bitWidth => .wrote ("i" ++ toString bitWidth)
  | fuel + 1, .pointer elem => (toNameIn tbl fuel elem).bind fun s => .wrote (s ++ "ptr")
  | fuel + 1, .array elem _ => (toNameIn tbl fuel elem).bind fun s => .wrote (s ++ "arr")
  | fuel + 1, .struct name literal opaqueBody elems =>
    toNameLoopIn (toNameIn tbl fuel) (elementsOf tbl (.struct name literal opaqueBody elems)) ""
  | _ + 1, .function _ _ => .aborted
  | _ + 1, .fixedVector _ _ => .aborted
  | _ + 1, .scalableVector _ _ => .aborted

/-- `printType(t, Out)` (lines 142-192) with calls nested at most `fuel`
deep. -/
def printTypeIn (tbl : StructTable) : Nat → Ty → Outcome
  | 0, _ => .running
  | fuel + 1, .pointer elem =>
    (printTypeIn tbl fuel elem).bind fun inner => .wrote ("access " ++ inner)
  | fuel + 1, .array elem numElements =>
    (printTypeIn tbl fuel elem).bind fun inner =>
      .wrote ("array "
        ++ (if numElements > 0 then "(1.." ++ toString numElements ++ ")"
            else "(Integer range <>)")
        ++ " of " ++ inner)
  | fuel + 1, .struct name literal opaqueBody elems =>
    if literal = false ∧ name ≠ "" then .ofOption (printSanitized name)
    else toNameIn tbl fuel (.struct name literal opaqueBody elems)
  | _ + 1, .function _ _ => .aborted
  | _ + 1, .fixedVector _ _ => .aborted
  | _ + 1, .scalableVector _ _ => .aborted
  | fuel + 1, t => toNameIn tbl fuel t

/-- `printArrType(ATy, Out)` (lines 194-198) with calls nested at most `fuel`
deep. -/
def printArrTypeIn (tbl : StructTable) (fuel : Nat) (ATy : Ty) : Outcome :=
  (toNameIn tbl fuel ATy).bind fun n =>
    (printTypeIn tbl fuel ATy).bind fun t => .wrote ("type " ++ n ++ " is " ++ t ++ ";")

/-- The loop of lines 232-249 with calls nested at most `fuel` deep. -/
def printMembersIn (tbl : StructTable) (fuel : Nat) : List Ty → Nat → Outcome
  | [], _ => .wrote ""
  | It :: rest, x =>
    (if (stripPointers It).isArrayTy || (stripPointers It).isStructTy
      then toNameIn tbl fuel (stripPointers It)
      else printTypeIn tbl fuel (stripPointers It)).bind fun ty =>
    (printMembersIn tbl fuel rest (x + 1)).bind fun more =>
      .wrote ("e" ++ toString x ++ " : " ++ accessPrefix It ++ ty ++ ";\n" ++ more)

/-- The loop of lines 204-218, `call` being the recursive call of
`printStructType`. -/
def printFieldDeclsIn (slot : Ty → Bool) (tbl : StructTable) (fuel : Nat)
    (call : Ty → Outcome) : List Ty → Outcome
  | [] => .wrote ""
  | It :: rest =>
    (if (stripPointers It).isStructTy && !hasNameOfField slot It
      then (call (stripPointers It)).bind fun decl => .wrote (decl ++ "\n")
      else if (stripPointers It).isArrayTy
      then (printArrTypeIn tbl fuel (stripPointers It)).bind fun decl => .wrote (decl ++ "\n")
      else .wrote "").bind fun decl =>
    (printFieldDeclsIn slot tbl fuel call rest).bind fun more => .wrote (decl ++ more)

/-- `printStructType(STy, Out)` (lines 200-252) with calls nested at most
`fuel` deep. -/
def printStructTypeIn (slot : Ty → Bool) (tbl : StructTable) : Nat → Ty → Outcome
  | 0, _ => .running
  | fuel + 1, .struct name literal opaqueBody elems =>
    (printFieldDeclsIn slot tbl fuel (printStructTypeIn slot tbl fuel)
      (elementsOf tbl (.struct name literal opaqueBody elems))).bind fun decls =>
    (if (Ty.struct name literal opaqueBody elems).hasName then .ofOption (printSanitized name)
      else toNameIn tbl fuel (.struct name literal opaqueBody elems)).bind fun nm =>
    (printMembersIn tbl fuel (elementsOf tbl (.struct name literal opaqueBody elems)) 0).bind
      fun members => .wrote (decls ++ "type " ++ nm ++ " is record\n" ++ members ++ "end record;")
  | _ + 1, _ => .aborted

/-- The context of the linked-list node `%Node = type { i32, %Node* }`. -/
def nodeTable : StructTable := fun name =>
  if name = "Node" then [.integer 32, .pointer (.struct "Node" false false [])] else []

/-- The struct type `%Node` of `nodeTable`. -/
def nodeType : Ty := .struct "Node" false false []

/-! ## Definitions that follow the wording of the specification

They are what the embedded code is compared with. -/

/-- Following the specification (4.1): the disallowed punctuation characters
are period, colon, slash and hyphen. -/
def disallowed (c : Char) : Bool := decide (c = '.' ∨ c = ':' ∨ c = '/' ∨ c = '-')

/-- Following the specification (4.1): each disallowed punctuation character
is replaced with an underscore. -/
def replaceDisallowed (s : List Char) : List Char :=
  s.map fun c => if disallowed c then '_' else c

/-- Following the specification (4.1): the maximal prefix of underscores is
stripped. -/
def stripUnderscores (s : List Char) : List Char := s.dropWhile (· == '_')

/-- The kinds of the first case group of `printType` (lines 146-159): void,
the floating-point kinds, label, metadata, the x86 register kinds, token and
the integers. -/
def Ty.isScalarTy : Ty → Bool
  | .void | .half | .bfloat | .float | .double | .x86_fp80 | .fp128 | .ppc_fp128
  | .label | .metadata | .x86_mmx | .x86_amx | .token | .integer _ => true
  | _ => false

/-- Following the specification (4.4): one member per field, in field order,
each named by its positional tag `e0`, `e1`, ... and followed by its rendered
type; `tys` are the rendered types of the fields that are left and `i` is the
position of the first of them. -/
def memberLines : List String → Nat → String
  | [], _ => ""
  | ty :: rest, i => "e" ++ Nat.repr i ++ " : " ++ ty ++ ";\n" ++ memberLines rest (i + 1)

/-- Following the specification (4.4): `k` pointer layers around the base
type `B`. -/
def pointerLayers : Nat → Ty → Ty
  | 0, B => B
  | k + 1, B => .pointer (pointerLayers k B)

/-- `T->getTypeID() == Type::PointerTyID`. -/
def Ty.isPointerTy : Ty → Bool
  | .pointer _ => true
  | _ => false

/-- The number that a text of decimal digits denotes. -/
def decimalValue (digits : List Char) : Nat :=
  digits.foldl (fun value c => 10 * value + (c.toNat - 48)) 0

/-- The floating-point kinds that `toName` accepts (lines 96-109). -/
def floatingPointTypes : List Ty :=
  [.half, .bfloat, .float, .double, .x86_fp80, .fp128, .ppc_fp128]

mutual
/-- Following the specification (4.2): the structural depth of a type, the
number of pointee, element and field steps of its longest descent. -/
def Ty.depth : Ty → Nat
  | .pointer elem => elem.depth + 1
  | .array elem _ => elem.depth + 1
  | .struct _ _ _ elems => depthOfFields elems
  | _ => 0
/-- One more than the greatest depth of the fields, and zero without a
field. -/
def depthOfFields : List Ty → Nat
  | [] => 0
  | t :: ts => max (t.depth + 1) (depthOfFields ts)
end

mutual
/-- The tree `t` is the unfolding of a type of the context `tbl`: every struct
node of `t` that has a name carries the element types that the table gives
for that name.  The types that have such a finite unfolding are those of the
acyclic type graphs. -/
def Ty.unfolds (tbl : StructTable) : Ty → Prop
  | .pointer elem => elem.unfolds tbl
  | .array elem _ => elem.unfolds tbl
  | .struct name literal opaqueBody elems =>
    ((Ty.struct name literal opaqueBody elems).hasName = true → tbl name = elems) ∧
      fieldsUnfold tbl elems
  | _ => True
/-- Every field is the unfolding of a type of the context. -/
def fieldsUnfold (tbl : StructTable) : List Ty → Prop
  | [] => True
  | t :: ts => t.unfolds tbl ∧ fieldsUnfold tbl ts
end

mutual
/-- Following the specification (4.2, 7): the type, or a type reached from it
through pointee, array element or struct field positions, is of a kind with no
translation rule (a function type or a vector type). -/
def reachesUnmanaged : Ty → Bool
  | .function _ _ => true
  | .fixedVector _ _ => true
  | .scalableVector _ _ => true
  | .pointer elem => reachesUnmanaged elem
  | .array elem _ => reachesUnmanaged elem
  | .struct _ _ _ elems => anyReachesUnmanaged elems
  | _ => false
/-- Some field reaches a kind with no translation rule. -/
def anyReachesUnmanaged : List Ty → Bool
  | [] => false
  | t :: ts => reachesUnmanaged t || anyReachesUnmanaged ts
end

/-! ## The sanitizer -/

theorem getElem?_replaceAt (s : List Char) (i j : Nat) :
    (replaceAt s i)[j]? =
      if i = j then s[j]?.map (fun c => if disallowed c then '_' else c) else s[j]? := by
  unfold replaceAt
  cases h : s[i]? with
  | none =>
    by_cases hij : i = j
    · subst hij; simp [h]
    · simp [hij]
  | some c =>
    by_cases hij : i = j
    · subst hij
      have hlt : i < s.length := by
        rcases List.getElem?_eq_some_iff.1 h with ⟨hlt, _⟩
        exact hlt
      by_cases hc : c = '.' ∨ c = ':' ∨ c = '/' ∨ c = '-'
      · have hd : disallowed c = true := by
          simpa [disallowed] using hc
        simp [h, hc, hd, List.getElem?_set, hlt]
      · have hd : disallowed c = false := by
          simpa [disallowed] using hc
        simp [h, hc, hd]
    · by_cases hc : c = '.' ∨ c = ':' ∨ c = '/' ∨ c = '-'
      · simp [hc, hij, List.getElem?_set_ne]
      · simp [hc, hij]

theorem getElem?_foldl_replaceAt (s : List Char) (n j : Nat) :
    ((List.range n).foldl replaceAt s)[j]? =
      if j < n then s[j]?.map (fun c => if disallowed c then '_' else c) else s[j]? := by
  induction n with
  | zero => simp
  | succ n ih =>
    rw [List.range_succ, List.foldl_append]
    simp only [List.foldl_cons, List.foldl_nil]
    rw [getElem?_replaceAt, ih]
    by_cases h1 : n = j
    · subst h1; simp
    · by_cases h2 : j < n
      · have : j < n + 1 := by omega
        simp [h1, h2, this]
      · have : ¬ j < n + 1 := by omega
        simp [h1, h2, this]

theorem replaceLoop_eq (s : List Char) : replaceLoop s = replaceDisallowed s := by
  apply List.ext_getElem?
  intro j
  unfold replaceLoop replaceDisallowed
  rw [getElem?_foldl_replaceAt]
  by_cases h : j < s.length
  · simp [h]
  · have hn : s[j]? = none := List.getElem?_eq_none (by omega)
    simp [h, hn]

theorem length_stripUnderscores_le (s : List Char) :
    (stripUnderscores s).length ≤ s.length :=
  (List.dropWhile_sublist _).length_le

theorem find_first_not_of_underscore (s : List Char) (pos : Nat) :
    find_first_not_of ['_'] s pos =
      if stripUnderscores s = [] then npos
      else pos + (s.length - (stripUnderscores s).length) := by
  induction s generalizing pos with
  | nil => simp [find_first_not_of, stripUnderscores]
  | cons c cs ih =>
    have hle := length_stripUnderscores_le cs
    by_cases hc : c = '_'
    · subst hc
      have hs : stripUnderscores ('_' :: cs) = stripUnderscores cs := by
        simp [stripUnderscores]
      rw [hs]
      simp only [find_first_not_of, List.mem_singleton, if_true, ih, List.length_cons]
      split
      · rfl
      · omega
    · have hs : stripUnderscores (c :: cs) = c :: cs := by
        simp [stripUnderscores, hc]
      rw [hs]
      simp [find_first_not_of, hc]

theorem drop_length_sub_stripUnderscores (s : List Char) :
    s.drop (s.length - (stripUnderscores s).length) = stripUnderscores s := by
  have h := List.takeWhile_append_dropWhile (· == '_') s
  have hlen : s.length - (stripUnderscores s).length = (s.takeWhile (· == '_')).length := by
    have := congrArg List.length h
    simp only [List.length_append] at this
    unfold stripUnderscores
    omega
  have hd := List.drop_left (s.takeWhile (· == '_')) (s.dropWhile (· == '_'))
  rw [h] at hd
  rw [hlen, hd]
  rfl

theorem substr_find_first_not_of (s : List Char) (h : s.length < npos) :
    substr s (find_first_not_of "_".data s 0) npos =
      if stripUnderscores s = [] then none else some (stripUnderscores s) := by
  have hle := length_stripUnderscores_le s
  rw [show "_".data = ['_'] from rfl, find_first_not_of_underscore]
  by_cases hnil : stripUnderscores s = []
  · rw [if_pos hnil, if_pos hnil]
    unfold substr
    rw [if_pos h]
  · rw [if_neg hnil, if_neg hnil]
    unfold substr
    rw [if_neg (by omega), Nat.zero_add, drop_length_sub_stripUnderscores,
      List.take_of_length_le (by omega)]

/-- What `printSanitized` computes, for a name whose size is below `npos`. -/
theorem printSanitized_eq (S : String) (h : S.length < npos) :
    printSanitized S =
      if stripUnderscores (replaceDisallowed S.data) = [] then none
      else if stripUnderscores (replaceDisallowed S.data) = "in".data then some "inn"
      else some (String.mk (stripUnderscores (replaceDisallowed S.data))) := by
  have hlen : (replaceDisallowed S.data).length < npos := by
    have hl : (replaceDisallowed S.data).length = S.length := by
      unfold replaceDisallowed
      rw [List.length_map]
      rfl
    rw [hl]
    exact h
  unfold printSanitized
  simp only [replaceLoop_eq]
  rw [substr_find_first_not_of _ hlen]
  by_cases hnil : stripUnderscores (replaceDisallowed S.data) = []
  · simp only [hnil, if_true]
  · simp only [hnil, if_false]
    by_cases hin : stripUnderscores (replaceDisallowed S.data) = "in".data
    · simp only [hin, ne_eq, not_true_eq_false, if_true, if_false]
    · simp only [hin, ne_eq, not_false_eq_true, if_true, if_false]

theorem disallowed_of_mem_replaceDisallowed (s : List Char) (c : Char)
    (h : c ∈ replaceDisallowed s) : disallowed c = false := by
  unfold replaceDisallowed at h
  rcases List.mem_map.1 h with ⟨d, _, hd⟩
  by_cases hdis : disallowed d = true
  · rw [if_pos hdis] at hd
    subst hd
    decide
  · rw [if_neg hdis] at hd
    subst hd
    simpa using hdis

theorem replaceDisallowed_eq_self (s : List Char) (h : ∀ c ∈ s, disallowed c = false) :
    replaceDisallowed s = s := by
  unfold replaceDisallowed
  conv_rhs => rw [← List.map_id s]
  apply List.map_congr_left
  intro c hc
  simp [h c hc]

theorem mem_of_mem_stripUnderscores (s : List Char) (c : Char)
    (h : c ∈ stripUnderscores s) : c ∈ s :=
  (List.dropWhile_sublist _).subset h

theorem head?_stripUnderscores (s : List Char) : (stripUnderscores s).head? ≠ some '_' := by
  have h := List.head?_dropWhile_not (· == '_') s
  unfold stripUnderscores
  intro hc
  rw [hc] at h
  simp at h

theorem stripUnderscores_idem (s : List Char) :
    stripUnderscores (stripUnderscores s) = stripUnderscores s :=
  List.dropWhile_idempotent _ _

theorem replaceDisallowed_eq_append (s : List Char) :
    replaceDisallowed s =
      List.replicate ((replaceDisallowed s).length
        - (stripUnderscores (replaceDisallowed s)).length) '_'
        ++ stripUnderscores (replaceDisallowed s) := by
  generalize replaceDisallowed s = t
  have h := List.takeWhile_append_dropWhile (· == '_') t
  have hlen : t.length - (stripUnderscores t).length = (t.takeWhile (· == '_')).length := by
    have := congrArg List.length h
    simp only [List.length_append] at this
    unfold stripUnderscores
    omega
  have hrep : t.takeWhile (· == '_') = List.replicate (t.takeWhile (· == '_')).length '_' := by
    apply List.eq_replicate_of_mem
    intro c hc
    simpa using List.mem_takeWhile_imp hc
  rw [hlen, ← hrep]
  exact h.symm

/-- The result of `printSanitized`, when there is one. -/
theorem printSanitized_some (x r : String) (hx : x.length < npos)
    (h : printSanitized x = some r) :
    stripUnderscores (replaceDisallowed x.data) ≠ [] ∧
      ((stripUnderscores (replaceDisallowed x.data) = "in".data ∧ r = "inn") ∨
       (stripUnderscores (replaceDisallowed x.data) ≠ "in".data ∧
         r = String.mk (stripUnderscores (replaceDisallowed x.data)))) := by
  rw [printSanitized_eq x hx] at h
  by_cases hnil : stripUnderscores (replaceDisallowed x.data) = []
  · rw [if_pos hnil] at h
    cases h
  · rw [if_neg hnil] at h
    refine ⟨hnil, ?_⟩
    by_cases hin : stripUnderscores (replaceDisallowed x.data) = "in".data
    · rw [if_pos hin] at h
      exact Or.inl ⟨hin, (Option.some.inj h).symm⟩
    · rw [if_neg hin] at h
      exact Or.inr ⟨hin, (Option.some.inj h).symm⟩

/-- A result of `printSanitized` is sanitized to itself. -/
theorem printSanitized_fixed (x r : String) (hx : x.length < npos)
    (h : printSanitized x = some r) : printSanitized r = some r := by
  rcases printSanitized_some x r hx h with ⟨hnil, ⟨_, hr⟩ | ⟨hin, hr⟩⟩
  · subst hr
    decide
  · have hlen : r.length < npos := by
      have h1 := length_stripUnderscores_le (replaceDisallowed x.data)
      have h2 : (replaceDisallowed x.data).length = x.length := by
        unfold replaceDisallowed
        rw [List.length_map]
        rfl
      have h3 : r.length = (stripUnderscores (replaceDisallowed x.data)).length := by
        rw [hr]
        rfl
      omega
    have hdata : r.data = stripUnderscores (replaceDisallowed x.data) := by rw [hr]
    have hrep : replaceDisallowed r.data = r.data := by
      apply replaceDisallowed_eq_self
      intro c hc
      rw [hdata] at hc
      exact disallowed_of_mem_replaceDisallowed _ c (mem_of_mem_stripUnderscores _ c hc)
    have hstrip : stripUnderscores r.data = r.data := by
      rw [hdata, stripUnderscores_idem]
    rw [printSanitized_eq r hlen, hrep, hstrip, hdata, if_neg hnil, if_neg hin, hr]

/-- C5 (sanitizer idempotence): for every name `x` whose size is a `size_t`
below `npos`, sanitizing the text that `printSanitized` writes for `x` writes
that same text again, so `sanitize (sanitize x) = sanitize x`; when
`printSanitized` writes nothing for `x`, neither side has a value. -/
theorem printSanitized_idempotent (x : String) (hx : x.length < npos) :
    (printSanitized x).bind printSanitized = printSanitized x := by
  cases h : printSanitized x with
  | none => rfl
  | some r =>
    rw [Option.some_bind]
    exact printSanitized_fixed x r hx h

theorem printSanitized_idempotent_witness :
    "a.b-c".length < npos ∧ printSanitized "a.b-c" = some "a_b_c" ∧
      (printSanitized "a.b-c").bind printSanitized = printSanitized "a.b-c" :=
  ⟨by decide, by decide, printSanitized_idempotent "a.b-c" (by decide)⟩

/-- C6 (sanitizer totality), at the failing input: for the non-empty name `_`
the call `find_first_not_of("_")` finds nothing and returns `npos`, which is
beyond the size of the string, so `substr` throws and `printSanitized` writes
no text.  In general `printSanitized` writes no text for a name `x` exactly
when every character of `x` is an underscore, a period, a colon, a slash or a
hyphen, and a text that it does write is not empty. -/
theorem printSanitized_aborts_iff (x : String) (hx : x.length < npos) :
    (printSanitized x = none ↔
      ∀ c ∈ x.data, c = '_' ∨ c = '.' ∨ c = ':' ∨ c = '/' ∨ c = '-') ∧
    (∀ r : String, printSanitized x = some r → r ≠ "") ∧
    find_first_not_of "_".data (replaceLoop "_".data) 0 = npos ∧
    substr (replaceLoop "_".data) npos npos = none ∧
    printSanitized "_" = none := by
  refine ⟨?_, ?_, by decide, by decide, by decide⟩
  · have hnil : stripUnderscores (replaceDisallowed x.data) = [] ↔
        ∀ c ∈ x.data, c = '_' ∨ c = '.' ∨ c = ':' ∨ c = '/' ∨ c = '-' := by
      unfold stripUnderscores replaceDisallowed
      rw [List.dropWhile_eq_nil_iff]
      simp only [List.mem_map, forall_exists_index, and_imp, forall_apply_eq_imp_iff₂,
        beq_iff_eq]
      constructor
      · intro h c hc
        have hcc := h c hc
        by_cases hd : disallowed c = true
        · right
          simpa [disallowed] using hd
        · rw [if_neg hd] at hcc
          exact Or.inl hcc
      · intro h c hc
        rcases h c hc with h1 | h2
        · subst h1
          decide
        · have hd : disallowed c = true := by simpa [disallowed] using h2
          rw [if_pos hd]
    rw [← hnil, printSanitized_eq x hx]
    constructor
    · intro h
      by_contra hne
      rw [if_neg hne] at h
      split at h <;> cases h
    · intro h
      rw [if_pos h]
  · intro r hr
    rcases printSanitized_some x r hx hr with ⟨hne, ⟨_, h⟩ | ⟨_, h⟩⟩
    · subst h
      decide
    · subst h
      intro hemp
      exact hne (congrArg String.data hemp)

theorem printSanitized_aborts_iff_witness :
    "-:".length < npos ∧ printSanitized "-:" = none :=
  ⟨by decide, ((printSanitized_aborts_iff "-:" (by decide)).1).2 (by decide)⟩

/-- C7 (reserved-word guard): `in`, `_in` and `.in` are sanitized to `inn`, and
a text written by `printSanitized` is never the reserved word `in`. -/
theorem printSanitized_ne_in (x r : String) (h : printSanitized x = some r) :
    printSanitized "in" = some "inn" ∧ printSanitized "_in" = some "inn" ∧
      printSanitized ".in" = some "inn" ∧ r ≠ "in" := by
  refine ⟨by decide, by decide, by decide, ?_⟩
  unfold printSanitized at h
  simp only at h
  split at h
  · cases h
  · rename_i s2 _
    by_cases hs : s2 = "in".data
    · rw [if_neg (by simpa using hs)] at h
      cases h
      decide
    · rw [if_pos (by simpa using hs)] at h
      cases h
      intro hr
      exact hs (congrArg String.data hr)

theorem printSanitized_ne_in_witness :
    printSanitized "__in" = some "inn" ∧
      (printSanitized "in" = some "inn" ∧ printSanitized "_in" = some "inn" ∧
        printSanitized ".in" = some "inn" ∧ "inn" ≠ "in") :=
  ⟨by decide, printSanitized_ne_in "__in" "inn" (by decide)⟩

/-- C8: when `printSanitized` writes `r` for a name `x` (of a size below
`npos`), `r` contains no period, colon, slash or hyphen, `r` does not begin
with an underscore, and `r` is either `inn`, written in place of `in`, or
exactly `x` with each of those four characters replaced by an underscore and
the maximal prefix of underscores removed: the replacement keeps the length
and every other character, and what is removed in front of the remainder is
underscores only. -/
theorem printSanitized_spec (x r : String) (hx : x.length < npos)
    (h : printSanitized x = some r) :
    (∀ c ∈ r.data, c ≠ '.' ∧ c ≠ ':' ∧ c ≠ '/' ∧ c ≠ '-') ∧
      r.data.head? ≠ some '_' ∧
      ((r = "inn" ∧ stripUnderscores (replaceDisallowed x.data) = "in".data) ∨
        r.data = stripUnderscores (replaceDisallowed x.data)) ∧
      (replaceDisallowed x.data).length = x.data.length ∧
      (∀ (i : Nat) (c : Char), x.data[i]? = some c →
        (replaceDisallowed x.data)[i]? =
          some (if c = '.' ∨ c = ':' ∨ c = '/' ∨ c = '-' then '_' else c)) ∧
      (∃ k, replaceDisallowed x.data =
        List.replicate k '_' ++ stripUnderscores (replaceDisallowed x.data)) ∧
      (stripUnderscores (replaceDisallowed x.data)).head? ≠ some '_' := by
  have hsome := printSanitized_some x r hx h
  have hmem : ∀ c ∈ stripUnderscores (replaceDisallowed x.data),
      c ≠ '.' ∧ c ≠ ':' ∧ c ≠ '/' ∧ c ≠ '-' := by
    intro c hc
    have hd := disallowed_of_mem_replaceDisallowed _ c (mem_of_mem_stripUnderscores _ c hc)
    simpa [disallowed] using hd
  refine ⟨?_, ?_, ?_, ?_, ?_, ⟨_, replaceDisallowed_eq_append x.data⟩,
    head?_stripUnderscores _⟩
  · rcases hsome with ⟨_, ⟨_, hr⟩ | ⟨_, hr⟩⟩
    · subst hr
      decide
    · subst hr
      exact hmem
  · rcases hsome with ⟨_, ⟨_, hr⟩ | ⟨_, hr⟩⟩
    · subst hr
      decide
    · subst hr
      exact head?_stripUnderscores _
  · rcases hsome with ⟨_, ⟨hin, hr⟩ | ⟨_, hr⟩⟩
    · exact Or.inl ⟨hr, hin⟩
    · subst hr
      exact Or.inr rfl
  · unfold replaceDisallowed
    rw [List.length_map]
  · intro i c hi
    unfold replaceDisallowed
    rw [List.getElem?_map, hi]
    simp [disallowed]

theorem printSanitized_spec_witness :
    "__a.b-c".length < npos ∧ printSanitized "__a.b-c" = some "a_b_c" ∧
      stripUnderscores (replaceDisallowed "__a.b-c".data) = "a_b_c".data ∧
      "a_b_c".data.head? ≠ some '_' :=
  ⟨by decide, by decide, by decide,
    (printSanitized_spec "__a.b-c" "a_b_c" (by decide) (by decide)).2.1⟩

/-! ## The namer and the type printer -/

theorem join_cons (a : String) (l : List String) :
    String.join (a :: l) = a ++ String.join l := by
  apply String.ext
  simp [String.join_eq, String.data_append]

theorem intercalate_go_eq (acc sep : String) (l : List String) :
    String.intercalate.go acc sep l = acc ++ String.join (l.map (sep ++ ·)) := by
  induction l generalizing acc with
  | nil =>
    apply String.ext
    simp [String.intercalate.go, String.join_eq, String.data_append]
  | cons a as ih =>
    rw [String.intercalate.go, ih, List.map_cons, join_cons]
    apply String.ext
    simp [String.data_append]

theorem intercalate_cons (sep a : String) (l : List String) :
    sep.intercalate (a :: l) = a ++ String.join (l.map (sep ++ ·)) := by
  rw [String.intercalate, intercalate_go_eq]

theorem toNameLoop_eq_some (elems : List Ty) (names : List String) (result : String)
    (h : elems.map toName = names.map some) :
    toNameLoop elems result = some (result ++ String.join names) := by
  induction elems generalizing names result with
  | nil =>
    cases names with
    | nil => simp [toNameLoop, String.join]
    | cons n ns => simp at h
  | cons t ts ih =>
    cases names with
    | nil => simp at h
    | cons n ns =>
      simp only [List.map_cons, List.cons.injEq] at h
      rw [toNameLoop, h.1]
      simp only
      rw [ih ns (result ++ n) h.2]
      rw [join_cons, String.append_assoc]

theorem toNameLoop_eq_none (elems : List Ty) (result : String)
    (h : ∃ t ∈ elems, toName t = none) : toNameLoop elems result = none := by
  induction elems generalizing result with
  | nil => simp at h
  | cons t ts ih =>
    rw [toNameLoop]
    cases ht : toName t with
    | none => rfl
    | some s =>
      simp only
      apply ih
      rcases h with ⟨u, hu, hn⟩
      rcases List.mem_cons.1 hu with rfl | hmem
      · rw [ht] at hn
        cases hn
      · exact ⟨u, hmem, hn⟩

/-- C9 (Namer rules): an integer of width `N` is named `i` followed by the
decimal digits of `N`; a pointer to `T` is named `toName T` followed by `ptr`;
an array of `T` is named `toName T` followed by `arr`, whatever its length; a
struct is named by the concatenation, in field order and without separator, of
the names of its fields, whatever its name and flags (so the empty text when
it has no field), and it has no name when a field has none. -/
theorem toName_rules :
    (∀ N : Nat, toName (.integer N) = some ("i" ++ Nat.repr N)) ∧
    (∀ T : Ty, toName (.pointer T) = (toName T).map (· ++ "ptr")) ∧
    (∀ (T : Ty) (n : Nat), toName (.array T n) = (toName T).map (· ++ "arr")) ∧
    (∀ (name : String) (literal opaqueBody : Bool) (elems : List Ty) (names : List String),
      elems.map toName = names.map some →
        toName (.struct name literal opaqueBody elems) = some (String.join names)) ∧
    (∀ (name : String) (literal opaqueBody : Bool) (elems : List Ty),
      (∃ t ∈ elems, toName t = none) →
        toName (.struct name literal opaqueBody elems) = none) ∧
    (∀ (name : String) (literal opaqueBody : Bool),
      toName (.struct name literal opaqueBody []) = some "") ∧
    toName (.integer 32) = some "i32" ∧
    toName (.array (.pointer (.integer 8)) 4) = some "i8ptrarr" ∧
    toName (.struct "Pair" false false [.integer 32, .pointer .double]) =
      some "i32doubleptr" := by
  refine ⟨fun N => rfl, fun T => ?_, fun T n => ?_, ?_, ?_, ?_, by decide, by decide,
    by decide⟩
  · rw [toName]
  · rw [toName]
  · intro name literal opaqueBody elems names h
    rw [toName, toNameLoop_eq_some elems names "" h]
    congr 1
  · intro name literal opaqueBody elems h
    rw [toName, toNameLoop_eq_none elems "" h]
  · intro name literal opaqueBody
    rw [toName, toNameLoop]

/-- C10, as the specification states it, fails: an array type of length zero
has a given length, and `printType` does not write `array (1..0) of` for it. -/
theorem printType_array_zero_not_bounded :
    ¬ (∀ (T : Ty) (n : Nat) (inner : String), printType T = some inner →
        printType (.array T n) =
          some ("array (1.." ++ Nat.repr n ++ ") of " ++ inner)) := by
  intro h
  have h0 := h (.integer 8) 0 "i8" (by decide)
  revert h0
  decide

/-- C10 (Printer rules), amended: a scalar is printed as `toName` of it; a
pointer to `T` as `access ` followed by `printType T`; an array of `T` of
length `n > 0` as `array (1..n) of ` followed by `printType T`, and an array of
length zero as `array (Integer range <>) of ` followed by `printType T`; a
struct as its sanitized name when it is not literal and its name is not empty,
and as `toName` of it otherwise. -/
theorem printType_rules :
    (∀ T : Ty, T.isScalarTy = true → printType T = toName T) ∧
    (∀ T : Ty, printType (.pointer T) = (printType T).map ("access " ++ ·)) ∧
    (∀ (T : Ty) (n : Nat), 0 < n →
      printType (.array T n) =
        (printType T).map (fun inner => "array (1.." ++ Nat.repr n ++ ") of " ++ inner)) ∧
    (∀ T : Ty, printType (.array T 0) =
        (printType T).map (fun inner => "array (Integer range <>) of " ++ inner)) ∧
    (∀ (name : String) (opaqueBody : Bool) (elems : List Ty), name ≠ "" →
      printType (.struct name false opaqueBody elems) = printSanitized name) ∧
    (∀ (name : String) (literal opaqueBody : Bool) (elems : List Ty),
      literal = true ∨ name = "" →
        printType (.struct name literal opaqueBody elems) =
          toName (.struct name literal opaqueBody elems)) ∧
    printType (.array (.integer 8) 16) = some "array (1..16) of i8" ∧
    printType (.array (.integer 8) 0) = some "array (Integer range <>) of i8" := by
  refine ⟨?_, fun T => ?_, ?_, ?_, ?_, ?_, by decide, by decide⟩
  · intro T hT
    cases T <;> first | rfl | cases hT
  · rw [printType]
  · intro T n hn
    rw [printType]
    congr 1
    funext inner
    rw [if_pos hn]
    apply String.ext
    simp [String.data_append]
    rfl
  · intro T
    rw [printType]
    congr 1
  · intro name opaqueBody elems hname
    rw [printType, if_pos ⟨rfl, hname⟩]
  · intro name literal opaqueBody elems h
    rw [printType, if_neg]
    rintro ⟨h1, h2⟩
    rcases h with h | h
    · rw [h1] at h
      cases h
    · exact h2 h

/-! ## The signature emitter -/

theorem printArgs_argsFrom_succ (l : List Param) (i : Nat) (ps : List String)
    (h : (argsFrom l (i + 1)).map printArgument = ps.map some) :
    printArgs (argsFrom l (i + 1)) = some (String.join (ps.map ("; " ++ ·))) := by
  induction l generalizing i ps with
  | nil =>
    cases ps with
    | nil => rfl
    | cons a as => simp [argsFrom] at h
  | cons p l ih =>
    cases ps with
    | nil => simp [argsFrom] at h
    | cons a as =>
      simp only [argsFrom, List.map_cons, List.cons.injEq] at h
      rw [argsFrom, printArgs, h.1]
      simp only
      rw [ih (i + 1) as h.2]
      simp only [List.map_cons, join_cons, Nat.succ_pos, if_true]

theorem printArgs_args (l : List Param) (ps : List String)
    (h : (argsFrom l 0).map printArgument = ps.map some) :
    printArgs (argsFrom l 0) = some ("; ".intercalate ps) := by
  cases l with
  | nil =>
    cases ps with
    | nil => rfl
    | cons a as => simp [argsFrom] at h
  | cons p l =>
    cases ps with
    | nil => simp [argsFrom] at h
    | cons a as =>
      simp only [argsFrom, List.map_cons, List.cons.injEq] at h
      rw [argsFrom, printArgs, h.1]
      simp only
      rw [printArgs_argsFrom_succ l 0 as h.2, intercalate_cons]
      congr 1

theorem argsFrom_getElem? (l : List Param) (i k : Nat) :
    (argsFrom l i)[k]? =
      l[k]?.map (fun p => { name := p.name, type := p.type, argNo := i + k }) := by
  induction l generalizing i k with
  | nil => simp [argsFrom]
  | cons p l ih =>
    cases k with
    | zero => simp [argsFrom]
    | succ k =>
      simp only [argsFrom, List.getElem?_cons_succ, ih]
      congr 1
      funext p
      congr 1
      omega

/-- C1: `printFunction` writes `procedure` when the return type is void and
`function` otherwise, a space, the sanitized name, then, only when there is a
parameter, ` (`, the parameters joined by `; ` and `)`, then, only when the
return type is not void, ` return ` and `toName` of the return type, and last
the `with Import, External_Name` directive carrying the unsanitized name.
Parameter number `i` is the `i`-th argument, written as its sanitized name, or
`a` followed by `i` when it has no name, then ` : ` and `printType` of its
type.  The two declarations that the specification gives for `foo` and `add`
are the texts written for them. -/
theorem printFunction_format (F : Function) (nm ret : String) (ps : List String)
    (hnm : printSanitized F.name = some nm)
    (hps : F.args.map printArgument = ps.map some)
    (hret : F.returnType.isVoidTy = false → toName F.returnType = some ret) :
    printFunction F =
        some ((if F.returnType.isVoidTy then "procedure" else "function") ++ " " ++ nm
          ++ (if F.params.isEmpty then "" else " (" ++ "; ".intercalate ps ++ ")")
          ++ (if F.returnType.isVoidTy then "" else " return " ++ ret)
          ++ " with Import, External_Name => \"" ++ F.name ++ "\";") ∧
      (∀ i : Nat, F.args[i]? =
        F.params[i]?.map (fun p => { name := p.name, type := p.type, argNo := i })) ∧
      (∀ (A : Argument) (n t : String), A.name ≠ "" → printSanitized A.name = some n →
        printType A.type = some t → printArgument A = some (n ++ " : " ++ t)) ∧
      (∀ (A : Argument) (t : String), A.name = "" → printType A.type = some t →
        printArgument A = some ("a" ++ Nat.repr A.argNo ++ " : " ++ t)) ∧
      printFunction
          { name := "foo"
            returnType := .void
            params := [{ name := "", type := .integer 32 }] } =
        some "procedure foo (a0 : i32) with Import, External_Name => \"foo\";" ∧
      printFunction
          { name := "add"
            returnType := .integer 32
            params := [{ name := "", type := .integer 32 }, { name := "", type := .integer 32 }] } =
        some "function add (a0 : i32; a1 : i32) return i32 with Import, External_Name => \"add\";" := by
  refine ⟨?_, ?_, ?_, ?_, by decide, by decide⟩
  · unfold printFunction
    rw [hnm]
    simp only
    have hargs : (if F.params.length > 0
          then (printArgs F.args).map (fun a => " (" ++ a ++ ")") else some "") =
        some (if F.params.isEmpty then "" else " (" ++ "; ".intercalate ps ++ ")") := by
      by_cases hp : F.params = []
      · simp [hp]
      · have hlen : F.params.length > 0 := List.length_pos.2 hp
        rw [if_pos hlen, if_neg (by simpa using hp)]
        unfold Function.args at hps ⊢
        rw [printArgs_args F.params ps hps]
        rfl
    rw [hargs]
    simp only
    cases hv : F.returnType.isVoidTy with
    | true => simp
    | false =>
      rw [hret hv]
      simp
  · intro i
    unfold Function.args
    rw [argsFrom_getElem?]
    simp
  · intro A n t hne hn ht
    unfold printArgument
    rw [if_pos hne, hn, ht]
  · intro A t he ht
    unfold printArgument
    rw [if_neg (by simpa using he), ht]
    rfl

theorem printFunction_format_witness :
    printFunction
        { name := "get.x"
          returnType := .pointer (.integer 8)
          params := [{ name := "p", type := .pointer .double }, { name := "", type := .integer 1 }] } =
      some ("function get_x (p : access double; a1 : i1) return i8ptr"
        ++ " with Import, External_Name => \"get.x\";") :=
  Eq.trans (printFunction_format
    { name := "get.x"
      returnType := .pointer (.integer 8)
      params := [{ name := "p", type := .pointer .double }, { name := "", type := .integer 1 }] }
    "get_x" "i8ptr" ["p : access double", "a1 : i1"] (by decide) (by decide)
    (fun _ => by decide)).1 (by decide)

/-! ## The composite declaration emitter -/

theorem stripPointers_scalar (t : Ty) (h : t.isScalarTy = true) : stripPointers t = t := by
  cases t <;> first | rfl | cases h

theorem isStructTy_scalar (t : Ty) (h : t.isScalarTy = true) : t.isStructTy = false := by
  cases t <;> first | rfl | cases h

theorem isArrayTy_scalar (t : Ty) (h : t.isScalarTy = true) : t.isArrayTy = false := by
  cases t <;> first | rfl | cases h

theorem accessPrefix_scalar (t : Ty) (h : t.isScalarTy = true) : accessPrefix t = "" := by
  cases t <;> first | rfl | cases h

theorem toName_scalar (t : Ty) (h : t.isScalarTy = true) : ∃ s, toName t = some s := by
  cases t <;> first | exact ⟨_, rfl⟩ | cases h

theorem printType_scalar (t : Ty) (h : t.isScalarTy = true) : printType t = toName t := by
  cases t <;> first | rfl | cases h

theorem printFieldDecls_scalar (slot : Ty → Bool) (elems : List Ty)
    (h : ∀ t ∈ elems, t.isScalarTy = true) : printFieldDecls slot elems = some "" := by
  induction elems with
  | nil => rw [printFieldDecls]
  | cons t ts ih =>
    have ht := h t (List.mem_cons_self _ _)
    rw [printFieldDecls, stripPointers_scalar t ht, isStructTy_scalar t ht,
      isArrayTy_scalar t ht, ih (fun u hu => h u (List.mem_cons_of_mem _ hu))]
    rfl

theorem printMembers_scalar (elems : List Ty) (x : Nat)
    (h : ∀ t ∈ elems, t.isScalarTy = true) :
    ∃ names : List String, elems.map toName = names.map some ∧
      printMembers elems x = some (memberLines names x) := by
  induction elems generalizing x with
  | nil => exact ⟨[], rfl, rfl⟩
  | cons t ts ih =>
    have ht := h t (List.mem_cons_self _ _)
    rcases toName_scalar t ht with ⟨s, hs⟩
    rcases ih (x + 1) (fun u hu => h u (List.mem_cons_of_mem _ hu)) with ⟨names, hn, hm⟩
    refine ⟨s :: names, by simp [hs, hn], ?_⟩
    rw [printMembers, stripPointers_scalar t ht, isStructTy_scalar t ht,
      isArrayTy_scalar t ht, printType_scalar t ht, hs, hm, accessPrefix_scalar t ht]
    simp only [Bool.or_self, Bool.false_eq_true, if_false, memberLines]
    congr 1
    apply String.ext
    simp [String.data_append]
    rfl

/-- C2: for a named struct all of whose fields are scalars, `printStructType`
writes exactly `type`, the sanitized name and `is record`, then for each field
in order the line made of its positional tag `e0`, `e1`, ..., ` : `, `toName`
of the field and `;`, then `end record;`, and nothing before `type`.  For
`Point` with two 32-bit integer fields this is the text of the
specification. -/
theorem printStructType_scalar_fields (slot : Ty → Bool) (name nm : String)
    (literal opaqueBody : Bool) (elems : List Ty)
    (hname : (Ty.struct name literal opaqueBody elems).hasName = true)
    (hnm : printSanitized name = some nm)
    (hscalar : ∀ t ∈ elems, t.isScalarTy = true) :
    (∃ names : List String, elems.map toName = names.map some ∧
      printStructType slot (.struct name literal opaqueBody elems) =
        some ("type " ++ nm ++ " is record\n" ++ memberLines names 0 ++ "end record;")) ∧
      memberLines ["i32", "i32"] 0 = "e0 : i32;\ne1 : i32;\n" ∧
      printStructType slot (.struct "Point" false false [.integer 32, .integer 32]) =
        some "type Point is record\ne0 : i32;\ne1 : i32;\nend record;" := by
  have key : ∀ (name nm : String) (literal opaqueBody : Bool) (elems : List Ty),
      (Ty.struct name literal opaqueBody elems).hasName = true →
      printSanitized name = some nm → (∀ t ∈ elems, t.isScalarTy = true) →
      ∃ names : List String, elems.map toName = names.map some ∧
        printStructType slot (.struct name literal opaqueBody elems) =
          some ("type " ++ nm ++ " is record\n" ++ memberLines names 0 ++ "end record;") := by
    intro name nm literal opaqueBody elems hname hnm hscalar
    rcases printMembers_scalar elems 0 hscalar with ⟨names, hn, hm⟩
    refine ⟨names, hn, ?_⟩
    rw [printStructType, printFieldDecls_scalar slot elems hscalar]
    simp only [hname, if_true, hnm, hm]
    congr 1
  refine ⟨key name nm literal opaqueBody elems hname hnm hscalar, by decide, ?_⟩
  rcases key "Point" "Point" false false [.integer 32, .integer 32] (by decide) (by decide)
    (by simp [Ty.isScalarTy]) with ⟨names, hn, hp⟩
  have hnames : names = ["i32", "i32"] := by
    have h2 : List.map some names = List.map some ["i32", "i32"] := by
      rw [← hn]
      decide
    exact List.map_injective_iff.2 (Option.some_injective _) h2
  rw [hp, hnames]
  decide

theorem printStructType_scalar_fields_witness :
    ∃ names : List String,
      [Ty.integer 8, Ty.double].map toName = names.map some ∧
      printStructType (fun _ => true) (.struct "s.t" false false [.integer 8, .double]) =
        some ("type " ++ "s_t" ++ " is record\n" ++ memberLines names 0 ++ "end record;") :=
  (printStructType_scalar_fields (fun _ => true) "s.t" "s_t" false false [.integer 8, .double]
    (by decide) (by decide) (by simp [Ty.isScalarTy])).1

theorem digitChar_ne_paren : ∀ d : Nat, d < 10 → Nat.digitChar d ≠ '(' := by
  decide

theorem toDigitsCore_ne_paren (fuel n : Nat) (ds : List Char) (h : ∀ c ∈ ds, c ≠ '(') :
    ∀ c ∈ Nat.toDigitsCore 10 fuel n ds, c ≠ '(' := by
  induction fuel generalizing n ds with
  | zero => simpa [Nat.toDigitsCore] using h
  | succ fuel ih =>
    have hd : ∀ c ∈ Nat.digitChar (n % 10) :: ds, c ≠ '(' := by
      intro c hc
      rcases List.mem_cons.1 hc with rfl | hc
      · exact digitChar_ne_paren _ (Nat.mod_lt _ (by decide))
      · exact h c hc
    rw [Nat.toDigitsCore]
    split
    · exact hd
    · exact ih _ _ hd

theorem repr_ne_paren (n : Nat) : ∀ c ∈ (Nat.repr n).data, c ≠ '(' := by
  unfold Nat.repr Nat.toDigits
  exact toDigitsCore_ne_paren _ _ _ (by simp)

theorem accessPrefix_ne_paren (t : Ty) : ∀ c ∈ (accessPrefix t).data, c ≠ '(' := by
  cases t with
  | pointer elem =>
    have ih := accessPrefix_ne_paren elem
    intro c hc
    rw [accessPrefix, String.data_append, List.mem_append] at hc
    rcases hc with hc | hc
    · revert c
      decide
    · exact ih c hc
  | _ => simp [accessPrefix]

mutual
theorem toName_ne_paren (t : Ty) (s : String) (h : toName t = some s) :
    ∀ c ∈ s.data, c ≠ '(' := by
  cases t with
  | integer bitWidth =>
    rw [toName] at h
    cases h
    intro c hc
    rw [String.data_append, List.mem_append] at hc
    rcases hc with hc | hc
    · revert c
      decide
    · exact repr_ne_paren bitWidth c hc
  | pointer elem =>
    rw [toName] at h
    cases he : toName elem with
    | none => rw [he] at h; cases h
    | some e =>
      rw [he] at h
      cases h
      have ih := toName_ne_paren elem e he
      intro c hc
      rw [String.data_append, List.mem_append] at hc
      rcases hc with hc | hc
      · exact ih c hc
      · revert c
        decide
  | array elem n =>
    rw [toName] at h
    cases he : toName elem with
    | none => rw [he] at h; cases h
    | some e =>
      rw [he] at h
      cases h
      have ih := toName_ne_paren elem e he
      intro c hc
      rw [String.data_append, List.mem_append] at hc
      rcases hc with hc | hc
      · exact ih c hc
      · revert c
        decide
  | struct name literal opaqueBody elems =>
    rw [toName] at h
    exact toNameLoop_ne_paren elems "" s (by decide) h
  | function ret params => rw [toName] at h; cases h
  | fixedVector elem n => rw [toName] at h; cases h
  | scalableVector elem n => rw [toName] at h; cases h
  | _ =>
    rw [toName] at h
    cases h
    decide
theorem toNameLoop_ne_paren (ts : List Ty) (acc s : String) (hacc : ∀ c ∈ acc.data, c ≠ '(')
    (h : toNameLoop ts acc = some s) : ∀ c ∈ s.data, c ≠ '(' := by
  cases ts with
  | nil =>
    rw [toNameLoop] at h
    cases h
    exact hacc
  | cons t ts =>
    rw [toNameLoop] at h
    cases ht : toName t with
    | none => rw [ht] at h; cases h
    | some n =>
      rw [ht] at h
      have hn := toName_ne_paren t n ht
      refine toNameLoop_ne_paren ts (acc ++ n) s ?_ h
      intro c hc
      rw [String.data_append, List.mem_append] at hc
      rcases hc with hc | hc
      · exact hacc c hc
      · exact hn c hc
end

theorem isStructTy_of_isArrayTy (A : Ty) (h : A.isArrayTy = true) : A.isStructTy = false := by
  cases A <;> first | rfl | cases h

theorem printArrType_some (A : Ty) (adecl : String) (h : printArrType A = some adecl) :
    ∃ an atxt : String, toName A = some an ∧ printType A = some atxt ∧
      adecl = "type " ++ an ++ " is " ++ atxt ++ ";" := by
  unfold printArrType at h
  cases hn : toName A with
  | none => rw [hn] at h; cases h
  | some an =>
    cases ht : printType A with
    | none => rw [hn, ht] at h; cases h
    | some atxt =>
      rw [hn, ht] at h
      cases h
      exact ⟨an, atxt, rfl, rfl, rfl⟩

theorem printFieldDecls_array (slot : Ty → Bool) (elems : List Ty) (i : Nat) (It : Ty)
    (decls : String) (h : printFieldDecls slot elems = some decls)
    (hi : elems[i]? = some It) (harr : (stripPointers It).isArrayTy = true) :
    ∃ adecl pre post : String, printArrType (stripPointers It) = some adecl ∧
      decls = pre ++ (adecl ++ "\n") ++ post := by
  induction elems generalizing i decls with
  | nil => simp at hi
  | cons t ts ih =>
    rw [printFieldDecls] at h
    cases i with
    | zero =>
      simp only [List.getElem?_cons_zero, Option.some.injEq] at hi
      subst hi
      rw [isStructTy_of_isArrayTy _ harr, harr] at h
      simp only [Bool.false_and, Bool.false_eq_true, if_false, if_true] at h
      cases ha : printArrType (stripPointers t) with
      | none => rw [ha] at h; cases h
      | some adecl =>
        rw [ha] at h
        simp only [Option.map_some'] at h
        cases hr : printFieldDecls slot ts with
        | none => rw [hr] at h; cases h
        | some r =>
          rw [hr] at h
          simp only [Option.map_some', Option.some.injEq] at h
          refine ⟨adecl, "", r, rfl, ?_⟩
          rw [← h]
          apply String.ext
          simp [String.data_append]
    | succ k =>
      simp only [List.getElem?_cons_succ] at hi
      split at h
      · cases h
      · rename_i decl _
        cases hr : printFieldDecls slot ts with
        | none => rw [hr] at h; cases h
        | some r =>
          rw [hr] at h
          simp only [Option.map_some', Option.some.injEq] at h
          rcases ih k r hr hi with ⟨adecl, pre, post, ha, hd⟩
          refine ⟨adecl, decl ++ pre, post, ha, ?_⟩
          rw [← h, hd]
          apply String.ext
          simp [String.data_append]

theorem printMembers_line (elems : List Ty) (x i : Nat) (It : Ty) (members : String)
    (h : printMembers elems x = some members) (hi : elems[i]? = some It) :
    ∃ ty before after : String,
      (if (stripPointers It).isArrayTy || (stripPointers It).isStructTy
        then toName (stripPointers It) else printType (stripPointers It)) = some ty ∧
      printMembers (elems.take i) x = some before ∧
      printMembers (elems.drop (i + 1)) (x + i + 1) = some after ∧
      members =
        before ++ ("e" ++ Nat.repr (x + i) ++ " : " ++ accessPrefix It ++ ty ++ ";\n") ++ after := by
  induction elems generalizing x i members with
  | nil => simp at hi
  | cons t ts ih =>
    rw [printMembers] at h
    split at h
    · cases h
    · rename_i ty hty
      split at h
      · cases h
      · rename_i more hmore
        simp only [Option.some.injEq] at h
        cases i with
        | zero =>
          simp only [List.getElem?_cons_zero, Option.some.injEq] at hi
          subst hi
          refine ⟨ty, "", more, hty, by simp [printMembers], by simpa using hmore, ?_⟩
          rw [← h]
          apply String.ext
          simp [String.data_append]
          rfl
        | succ k =>
          simp only [List.getElem?_cons_succ] at hi
          rcases ih (x + 1) k more hmore hi with ⟨ty2, before, after, hty2, hb, ha, hm⟩
          refine ⟨ty2, "e" ++ toString x ++ " : " ++ accessPrefix t ++ ty ++ ";\n" ++ before,
            after, hty2, ?_, ?_, ?_⟩
          · rw [List.take_succ_cons, printMembers, hty, hb]
          · rw [List.drop_succ_cons]
            have : x + (k + 1) + 1 = x + 1 + k + 1 := by omega
            rw [this]
            exact ha
          · rw [← h, hm]
            have : x + (k + 1) = x + 1 + k := by omega
            rw [this]
            apply String.ext
            simp [String.data_append]

/-- C3: when a named struct has a field whose type, after the pointers are
unwrapped, is an array `A`, the text that `printStructType` writes contains the
declaration `type <toName A> is <printType A>;` and a newline before the
struct's own `type ... is record` line, and the member line of that field is
its tag, its `access` prefixes and `toName A`, a text in which `array (` does
not occur.  For a struct `Buf` with one field of sixteen 8-bit integers the
member line is `e0 : i8arr;`. -/
theorem printStructType_array_field (slot : Ty → Bool) (name : String)
    (literal opaqueBody : Bool) (elems : List Ty) (i : Nat) (It : Ty) (out : String)
    (hname : (Ty.struct name literal opaqueBody elems).hasName = true)
    (hout : printStructType slot (.struct name literal opaqueBody elems) = some out)
    (hi : elems[i]? = some It)
    (harr : (stripPointers It).isArrayTy = true) :
    (∃ nm an atxt pre mid members before after : String,
      printSanitized name = some nm ∧
      toName (stripPointers It) = some an ∧
      printType (stripPointers It) = some atxt ∧
      printMembers elems 0 = some members ∧
      out = pre ++ ("type " ++ an ++ " is " ++ atxt ++ ";" ++ "\n") ++ mid
        ++ ("type " ++ nm ++ " is record\n" ++ members ++ "end record;") ∧
      printMembers (elems.take i) 0 = some before ∧
      printMembers (elems.drop (i + 1)) (i + 1) = some after ∧
      members =
        before ++ ("e" ++ Nat.repr i ++ " : " ++ accessPrefix It ++ an ++ ";\n") ++ after ∧
      ¬ ("array (".data <:+:
          ("e" ++ Nat.repr i ++ " : " ++ accessPrefix It ++ an ++ ";\n").data)) ∧
    printStructType slot (.struct "Buf" false false [.array (.integer 8) 16]) =
      some "type i8arr is array (1..16) of i8;\ntype Buf is record\ne0 : i8arr;\nend record;" := by
  constructor
  · rw [printStructType] at hout
    cases hd : printFieldDecls slot elems with
    | none => rw [hd] at hout; cases hout
    | some decls =>
      rw [hd, hname] at hout
      simp only [if_true] at hout
      cases hnm : printSanitized name with
      | none => rw [hnm] at hout; cases hout
      | some nm =>
        cases hm : printMembers elems 0 with
        | none => rw [hnm, hm] at hout; cases hout
        | some members =>
          rw [hnm, hm] at hout
          simp only [Option.some.injEq] at hout
          rcases printFieldDecls_array slot elems i It decls hd hi harr with
            ⟨adecl, pre, post, ha, hdecls⟩
          rcases printArrType_some _ adecl ha with ⟨an, atxt, han, hat, hadecl⟩
          rcases printMembers_line elems 0 i It members hm hi with
            ⟨ty, before, after, hty, hb, haf, hmem⟩
          rw [harr, Bool.true_or, if_pos rfl, han] at hty
          cases hty
          rw [Nat.zero_add] at hmem haf
          refine ⟨nm, an, atxt, pre, post, members, before, after, rfl, han, hat, rfl, ?_,
            hb, haf, hmem, ?_⟩
          · rw [← hout, hdecls, hadecl]
            apply String.ext
            simp [String.data_append]
          · intro hinfix
            have hmemc : '(' ∈
                ("e" ++ Nat.repr i ++ " : " ++ accessPrefix It ++ an ++ ";\n").data :=
              hinfix.subset (by decide)
            have hno : ∀ c ∈
                ("e" ++ Nat.repr i ++ " : " ++ accessPrefix It ++ an ++ ";\n").data,
                c ≠ '(' := by
              intro c hc
              simp only [String.data_append, List.mem_append] at hc
              rcases hc with ((((hc | hc) | hc) | hc) | hc) | hc
              · revert c
                decide
              · exact repr_ne_paren i c hc
              · revert c
                decide
              · exact accessPrefix_ne_paren It c hc
              · exact toName_ne_paren _ an han c hc
              · revert c
                decide
            exact hno _ hmemc rfl
  · simp [printStructType, printFieldDecls, printMembers, stripPointers, Ty.isStructTy,
      Ty.isArrayTy, Ty.hasName, printArrType, printType, toName, accessPrefix]
    decide

theorem printStructType_array_field_witness :
    printStructType (fun _ => true)
        (.struct "Msg" false false [.integer 32, .pointer (.array (.integer 8) 4)]) =
      some ("type i8arr is array (1..4) of i8;\n"
        ++ "type Msg is record\ne0 : i32;\ne1 : access i8arr;\nend record;") ∧
    ∃ nm an atxt pre mid members before after : String,
      printSanitized "Msg" = some nm ∧
      toName (stripPointers (.pointer (.array (.integer 8) 4))) = some an ∧
      printType (stripPointers (.pointer (.array (.integer 8) 4))) = some atxt ∧
      printMembers [.integer 32, .pointer (.array (.integer 8) 4)] 0 = some members ∧
      "type i8arr is array (1..4) of i8;\ntype Msg is record\ne0 : i32;\ne1 : access i8arr;\nend record;" =
        pre ++ ("type " ++ an ++ " is " ++ atxt ++ ";" ++ "\n") ++ mid
          ++ ("type " ++ nm ++ " is record\n" ++ members ++ "end record;") ∧
      printMembers ([Ty.integer 32, .pointer (.array (.integer 8) 4)].take 1) 0 = some before ∧
      printMembers ([Ty.integer 32, .pointer (.array (.integer 8) 4)].drop (1 + 1)) (1 + 1) =
        some after ∧
      members =
        before ++ ("e" ++ Nat.repr 1 ++ " : "
          ++ accessPrefix (.pointer (.array (.integer 8) 4)) ++ an ++ ";\n") ++ after ∧
      ¬ ("array (".data <:+:
          ("e" ++ Nat.repr 1 ++ " : "
            ++ accessPrefix (.pointer (.array (.integer 8) 4)) ++ an ++ ";\n").data) := by
  have hev : printStructType (fun _ => true)
        (.struct "Msg" false false [.integer 32, .pointer (.array (.integer 8) 4)]) =
      some ("type i8arr is array (1..4) of i8;\n"
        ++ "type Msg is record\ne0 : i32;\ne1 : access i8arr;\nend record;") := by
    simp [printStructType, printFieldDecls, printMembers, stripPointers, Ty.isStructTy,
      Ty.isArrayTy, Ty.hasName, printArrType, printType, toName, accessPrefix, hasNameOfField]
    decide
  exact ⟨hev, (printStructType_array_field (fun _ => true) "Msg" false false
    [.integer 32, .pointer (.array (.integer 8) 4)] 1 (.pointer (.array (.integer 8) 4)) _
    (by decide) hev rfl (by decide)).1⟩

/-- C4 (dependency ordering), at the failing input: the test of line 211 asks
`hasName()` of the field type `*It`, not of the unwrapped `T`.  For a field
that is a pointer to the anonymous struct of an `i32` and an `i8` the call is
made on the pointer type, and when it answers `true` there (as it does on the
`PointerType` object, whose slot holds the pointee) nothing is declared for
the field: the record of `S` mentions `i32i8` and no declaration of `i32i8`
precedes it.  The same anonymous struct embedded directly is declared
first. -/
theorem printStructType_pointer_to_anonymous (slot : Ty → Bool)
    (hslot : slot (.pointer (.struct "" true false [.integer 32, .integer 8])) = true) :
    printStructType slot
        (.struct "S" false false [.pointer (.struct "" true false [.integer 32, .integer 8])]) =
      some "type S is record\ne0 : access i32i8;\nend record;" ∧
    printStructType slot
        (.struct "S" false false [.struct "" true false [.integer 32, .integer 8]]) =
      some ("type i32i8 is record\ne0 : i32;\ne1 : i8;\nend record;\n"
        ++ "type S is record\ne0 : i32i8;\nend record;") := by
  constructor
  · simp [printStructType, printFieldDecls, printMembers, stripPointers, Ty.isStructTy,
      Ty.isArrayTy, Ty.hasName, printArrType, printType, toName, toNameLoop, accessPrefix,
      hasNameOfField, hslot]
    decide
  · simp [printStructType, printFieldDecls, printMembers, stripPointers, Ty.isStructTy,
      Ty.isArrayTy, Ty.hasName, printArrType, printType, toName, toNameLoop, accessPrefix,
      hasNameOfField]
    decide

theorem printStructType_pointer_to_anonymous_witness :
    printStructType (fun _ => true)
        (.struct "S" false false [.pointer (.struct "" true false [.integer 32, .integer 8])]) =
      some "type S is record\ne0 : access i32i8;\nend record;" :=
  (printStructType_pointer_to_anonymous (fun _ => true) rfl).1

/-! ## Members, names and references of struct types -/

theorem stripPointers_pointerLayers (k : Nat) (B : Ty) (hB : B.isPointerTy = false) :
    stripPointers (pointerLayers k B) = B := by
  induction k with
  | zero =>
    cases B <;> first | rfl | cases hB
  | succ k ih => rw [pointerLayers, stripPointers, ih]

theorem accessPrefix_pointerLayers (k : Nat) (B : Ty) (hB : B.isPointerTy = false) :
    accessPrefix (pointerLayers k B) = String.join (List.replicate k "access ") := by
  induction k with
  | zero =>
    cases B <;> first | rfl | cases hB
  | succ k ih => rw [pointerLayers, accessPrefix, ih, List.replicate_succ, join_cons]

/-- The text of `printStructType` for a struct, when there is one: the
declarations of the dependency pass, then the struct's own record. -/
theorem printStructType_some (slot : Ty → Bool) (name : String) (literal opaqueBody : Bool)
    (elems : List Ty) (out : String)
    (hout : printStructType slot (.struct name literal opaqueBody elems) = some out) :
    ∃ decls nm members : String,
      printFieldDecls slot elems = some decls ∧
      (if (Ty.struct name literal opaqueBody elems).hasName then printSanitized name
        else toName (.struct name literal opaqueBody elems)) = some nm ∧
      printMembers elems 0 = some members ∧
      out = decls ++ "type " ++ nm ++ " is record\n" ++ members ++ "end record;" := by
  rw [printStructType] at hout
  cases hd : printFieldDecls slot elems with
  | none => rw [hd] at hout; cases hout
  | some decls =>
    cases hnm : (if (Ty.struct name literal opaqueBody elems).hasName then printSanitized name
        else toName (.struct name literal opaqueBody elems)) with
    | none => rw [hd, hnm] at hout; cases hout
    | some nm =>
      cases hm : printMembers elems 0 with
      | none => rw [hd, hnm, hm] at hout; cases hout
      | some members =>
        rw [hd, hnm, hm] at hout
        exact ⟨decls, nm, members, rfl, rfl, rfl, (Option.some.inj hout).symm⟩

/-- C16: for a field number `i` whose type is `k` pointer layers around a base
`B` that is not a pointer, the member line that `printStructType` writes is
`e<i> : `, then `access ` `k` times, then `toName B` when `B` is an array or a
struct, whether the struct is named or not, and `printType B` otherwise, then
`;` and a newline.  A pointer to the named struct `Inner` of an `i32` and an
`i8` is so written `access i32i8`. -/
theorem printStructType_member_line (slot : Ty → Bool) (name : String)
    (literal opaqueBody : Bool) (elems : List Ty) (i k : Nat) (B : Ty) (out : String)
    (hout : printStructType slot (.struct name literal opaqueBody elems) = some out)
    (hi : elems[i]? = some (pointerLayers k B))
    (hB : B.isPointerTy = false) :
    (∃ decls nm members before after ty : String,
      out = decls ++ "type " ++ nm ++ " is record\n" ++ members ++ "end record;" ∧
      printMembers elems 0 = some members ∧
      printMembers (elems.take i) 0 = some before ∧
      printMembers (elems.drop (i + 1)) (i + 1) = some after ∧
      members =
        before ++ ("e" ++ Nat.repr i ++ " : " ++ String.join (List.replicate k "access ")
          ++ ty ++ ";\n") ++ after ∧
      (B.isArrayTy = true ∨ B.isStructTy = true → toName B = some ty) ∧
      (B.isArrayTy = false → B.isStructTy = false → printType B = some ty)) ∧
    printMembers [.pointer (.struct "Inner" false false [.integer 32, .integer 8])] 0 =
      some "e0 : access i32i8;\n" := by
  refine ⟨?_, by decide⟩
  rcases printStructType_some slot name literal opaqueBody elems out hout with
    ⟨decls, nm, members, _, _, hm, hout'⟩
  rcases printMembers_line elems 0 i _ members hm hi with ⟨ty, before, after, hty, hb, ha, hmem⟩
  rw [stripPointers_pointerLayers k B hB] at hty
  rw [accessPrefix_pointerLayers k B hB, Nat.zero_add] at hmem
  rw [Nat.zero_add] at ha
  refine ⟨decls, nm, members, before, after, ty, hout', hm, hb, ha, hmem, ?_, ?_⟩
  · intro h
    have hc : (B.isArrayTy || B.isStructTy) = true := by
      rcases h with h | h <;> simp [h]
    rw [hc, if_pos rfl] at hty
    exact hty
  · intro h1 h2
    rw [h1, h2] at hty
    exact hty

theorem printStructType_member_line_witness :
    ∃ decls nm members before after ty : String,
      "type s is record\ne0 : i1;\ne1 : access access double;\nend record;" =
        decls ++ "type " ++ nm ++ " is record\n" ++ members ++ "end record;" ∧
      printMembers [.integer 1, .pointer (.pointer .double)] 0 = some members ∧
      printMembers ([Ty.integer 1, .pointer (.pointer .double)].take 1) 0 = some before ∧
      printMembers ([Ty.integer 1, .pointer (.pointer .double)].drop (1 + 1)) (1 + 1) =
        some after ∧
      members =
        before ++ ("e" ++ Nat.repr 1 ++ " : " ++ String.join (List.replicate 2 "access ")
          ++ ty ++ ";\n") ++ after ∧
      (Ty.double.isArrayTy = true ∨ Ty.double.isStructTy = true → toName .double = some ty) ∧
      (Ty.double.isArrayTy = false → Ty.double.isStructTy = false →
        printType .double = some ty) :=
  (printStructType_member_line (fun _ => true) "s" false false
    [.integer 1, .pointer (.pointer .double)] 1 2 .double _
    (by
      simp [printStructType, printFieldDecls, printMembers, stripPointers, Ty.isStructTy,
        Ty.isArrayTy, Ty.hasName, printType, toName, accessPrefix, hasNameOfField]
      decide)
    rfl rfl).1

/-- C18: the Namer is not injective.  The struct whose single field is a
struct of two `i32` and the struct of two `i32` are different types with the
same name `i32i32`, and two arrays of `i32` of lengths 2 and 3 are different
types with the same name `i32arr`. -/
theorem toName_not_injective :
    toName (.struct "" true false [.struct "" true false [.integer 32, .integer 32]]) =
        some "i32i32" ∧
      toName (.struct "" true false [.integer 32, .integer 32]) = some "i32i32" ∧
      Ty.struct "" true false [.struct "" true false [.integer 32, .integer 32]] ≠
        Ty.struct "" true false [.integer 32, .integer 32] ∧
      toName (.array (.integer 32) 2) = some "i32arr" ∧
      toName (.array (.integer 32) 3) = some "i32arr" ∧
      Ty.array (.integer 32) 2 ≠ Ty.array (.integer 32) 3 ∧
      ¬ Function.Injective toName := by
  refine ⟨by decide, by decide, ?_, by decide, by decide, ?_, ?_⟩
  · intro h
    injection h with _ _ _ h4
    injection h4 with h5 _
    cases h5
  · intro h
    injection h with _ h2
    cases h2
  · intro hinj
    have h := @hinj (Ty.array (.integer 32) 2) (Ty.array (.integer 32) 3) (by decide)
    injection h with _ h2
    cases h2

/-- C20 (declaration/reference agreement): the identifier that
`printStructType` writes between `type ` and ` is record` in the declaration
of a struct is the text that `printType` writes for a reference to that
struct: the sanitized name when the struct has a name, and `toName` of it
otherwise (so for every literal struct). -/
theorem printStructType_name_eq_printType (slot : Ty → Bool) (name : String)
    (literal opaqueBody : Bool) (elems : List Ty) (out : String)
    (hout : printStructType slot (.struct name literal opaqueBody elems) = some out) :
    ∃ decls nm members : String,
      printFieldDecls slot elems = some decls ∧
      printMembers elems 0 = some members ∧
      out = decls ++ "type " ++ nm ++ " is record\n" ++ members ++ "end record;" ∧
      printType (.struct name literal opaqueBody elems) = some nm ∧
      ((literal = false ∧ name ≠ "") → printSanitized name = some nm) ∧
      ((literal = true ∨ name = "") →
        toName (.struct name literal opaqueBody elems) = some nm) := by
  rcases printStructType_some slot name literal opaqueBody elems out hout with
    ⟨decls, nm, members, hd, hnm, hm, hout'⟩
  refine ⟨decls, nm, members, hd, hm, hout', ?_, ?_, ?_⟩
  · rw [printType]
    by_cases hc : literal = false ∧ name ≠ ""
    · rw [if_pos hc]
      have hn : (Ty.struct name literal opaqueBody elems).hasName = true := by
        simp [Ty.hasName, hc.1, hc.2]
      rw [hn, if_pos rfl] at hnm
      exact hnm
    · rw [if_neg hc]
      have hn : (Ty.struct name literal opaqueBody elems).hasName = false := by
        cases literal <;> simp [Ty.hasName] at hc ⊢
        exact hc
      rw [hn] at hnm
      exact hnm
  · intro hc
    have hn : (Ty.struct name literal opaqueBody elems).hasName = true := by
      simp [Ty.hasName, hc.1, hc.2]
    rw [hn, if_pos rfl] at hnm
    exact hnm
  · intro hc
    have hn : (Ty.struct name literal opaqueBody elems).hasName = false := by
      rcases hc with hc | hc <;> simp [Ty.hasName, hc]
    rw [hn] at hnm
    exact hnm

theorem printStructType_name_eq_printType_witness :
    ∃ decls nm members : String,
      printFieldDecls (fun _ => true) [.integer 8] = some decls ∧
      printMembers [.integer 8] 0 = some members ∧
      "type a_b is record\ne0 : i8;\nend record;" =
        decls ++ "type " ++ nm ++ " is record\n" ++ members ++ "end record;" ∧
      printType (.struct "a.b" false false [.integer 8]) = some nm ∧
      ((false = false ∧ "a.b" ≠ "") → printSanitized "a.b" = some nm) ∧
      ((false = true ∨ "a.b" = "") →
        toName (.struct "a.b" false false [.integer 8]) = some nm) :=
  printStructType_name_eq_printType (fun _ => true) "a.b" false false [.integer 8] _
    (by
      simp [printStructType, printFieldDecls, printMembers, stripPointers, Ty.isStructTy,
        Ty.isArrayTy, Ty.hasName, printType, toName, accessPrefix, hasNameOfField]
      decide)

/-! ## The module assembler -/

theorem printTypesLoop_eq (slot : Ty → Bool) (types : List Ty) (tys : List String)
    (h : (types.filter (fun t => !t.isLiteral && !t.isOpaque)).map (printStructType slot) =
      tys.map some) :
    printTypesLoop slot types = some (String.join (tys.map (· ++ "\n"))) := by
  induction types generalizing tys with
  | nil =>
    cases tys with
    | nil => rfl
    | cons a as => simp at h
  | cons t ts ih =>
    rw [printTypesLoop]
    cases hl : t.isLiteral with
    | true =>
      rw [List.filter_cons_of_neg (by simp [hl])] at h
      simp only [if_true]
      exact ih tys h
    | false =>
      cases ho : t.isOpaque with
      | true =>
        rw [List.filter_cons_of_neg (by simp [ho])] at h
        simp only [Bool.false_eq_true, if_false, if_true]
        exact ih tys h
      | false =>
        rw [List.filter_cons_of_pos (by simp [hl, ho])] at h
        cases tys with
        | nil => simp at h
        | cons a as =>
          simp only [List.map_cons, List.cons.injEq] at h
          simp only [Bool.false_eq_true, if_false]
          rw [h.1, ih as h.2]
          simp only [List.map_cons, join_cons, String.append_assoc]

theorem printFunctionsLoop_eq (functions : List Function) (fns : List String)
    (h : functions.map printFunction = fns.map some) :
    printFunctionsLoop functions = some (String.join (fns.map (· ++ "\n"))) := by
  induction functions generalizing fns with
  | nil =>
    cases fns with
    | nil => rfl
    | cons a as => simp at h
  | cons F Fs ih =>
    cases fns with
    | nil => simp at h
    | cons a as =>
      simp only [List.map_cons, List.cons.injEq] at h
      rw [printFunctionsLoop, h.1, ih as h.2]
      simp only [List.map_cons, join_cons, String.append_assoc]

set_option maxRecDepth 100000 in
/-- C13: `printModule` writes the line `-- Generated from <source file name>`
exactly when the source file name is not empty, then `with Interfaces.C;`,
then `package <P> is`, then the fixed block of primitive subtypes, then, for
each struct type that is neither literal nor opaque, in the order of
discovery, the text of `printStructType` and a newline, then an empty line and
`-- functions`, then for each function in order the text of `printFunction`
and a newline, and last `end <P>;`.  The global variables of the module have
no part in the text. -/
theorem printModule_format (slot : Ty → Bool) (M : Module) (P : String)
    (tys fns : List String)
    (htys : (M.structTypes.filter (fun t => !t.isLiteral && !t.isOpaque)).map
      (printStructType slot) = tys.map some)
    (hfns : M.functions.map printFunction = fns.map some) :
    printModule slot M P =
        some ((if M.sourceFileName ≠ "" then "-- Generated from " ++ M.sourceFileName ++ "\n"
               else "")
          ++ "with Interfaces.C;\n" ++ "package " ++ P ++ " is\n" ++ printPrimitiveTypes
          ++ String.join (tys.map (· ++ "\n")) ++ "\n-- functions\n"
          ++ String.join (fns.map (· ++ "\n")) ++ "end " ++ P ++ ";") ∧
      printPrimitiveTypes =
        "subtype i1 is Interfaces.C.c_bool;\nsubtype i8 is Interfaces.C.char;\n"
          ++ "subtype u8 is Interfaces.C.unsigned_char;\nsubtype i16 is Interfaces.C.short;\n"
          ++ "subtype u16 is Interfaces.C.unsigned_short;\nsubtype i32 is Interfaces.C.int;\n"
          ++ "subtype u32 is Interfaces.C.unsigned;\nsubtype i64 is Interfaces.C.long;\n"
          ++ "subtype u64 is Interfaces.C.unsigned_long;\n"
          ++ "subtype double is Interfaces.C.double;\n" ∧
      (∀ globals : List (String × Ty),
        printModule slot { M with globals := globals } P = printModule slot M P) := by
  refine ⟨?_, by rfl, fun _ => rfl⟩
  unfold printModule printTypes
  rw [printTypesLoop_eq slot M.structTypes tys htys, printFunctionsLoop_eq M.functions fns hfns]
  rfl

set_option maxRecDepth 100000 in
theorem printModule_format_witness :
    printModule (fun _ => true)
        { sourceFileName := "p.c"
          structTypes := [.struct "" true false [.integer 8],
            .struct "Point" false false [.integer 32, .integer 32],
            .struct "Hidden" false true []]
          functions := [{ name := "foo"
                          returnType := .void
                          params := [{ name := "", type := .integer 32 }] }]
          globals := [("g", .integer 32)] } "out" =
      some ("-- Generated from p.c\nwith Interfaces.C;\npackage out is\n"
        ++ printPrimitiveTypes
        ++ "type Point is record\ne0 : i32;\ne1 : i32;\nend record;\n"
        ++ "\n-- functions\n"
        ++ "procedure foo (a0 : i32) with Import, External_Name => \"foo\";\n"
        ++ "end out;") :=
  Eq.trans
    (printModule_format (fun _ => true)
      { sourceFileName := "p.c"
        structTypes := [.struct "" true false [.integer 8],
          .struct "Point" false false [.integer 32, .integer 32],
          .struct "Hidden" false true []]
        functions := [{ name := "foo"
                        returnType := .void
                        params := [{ name := "", type := .integer 32 }] }]
        globals := [("g", .integer 32)] } "out"
      ["type Point is record\ne0 : i32;\ne1 : i32;\nend record;"]
      ["procedure foo (a0 : i32) with Import, External_Name => \"foo\";"]
      (by
        simp [Ty.isLiteral, Ty.isOpaque, printStructType, printFieldDecls, printMembers,
          stripPointers, Ty.isStructTy, Ty.isArrayTy, Ty.hasName, printType, toName,
          accessPrefix, hasNameOfField]
        decide)
      (by decide)).1
    (by rfl)

/-! ## Declarations of the dependency pass -/

/-- The text of the dependency pass is one block per field, in field order:
the array declaration and a newline for a field whose base is an array, the
whole text of `printStructType` and a newline for a field whose base is a
struct and for which the test of line 211 finds no name, and nothing for any
other field. -/
theorem printFieldDecls_blocks (slot : Ty → Bool) (elems : List Ty) (decls : String)
    (h : printFieldDecls slot elems = some decls) :
    ∃ blocks : List String, blocks.length = elems.length ∧ decls = String.join blocks ∧
      ∀ (i : Nat) (It : Ty), elems[i]? = some It →
        ((stripPointers It).isArrayTy = true →
          ∃ d, printArrType (stripPointers It) = some d ∧ blocks[i]? = some (d ++ "\n")) ∧
        ((stripPointers It).isStructTy = true → hasNameOfField slot It = false →
          ∃ d, printStructType slot (stripPointers It) = some d ∧
            blocks[i]? = some (d ++ "\n")) ∧
        ((stripPointers It).isArrayTy = false →
          ((stripPointers It).isStructTy = false ∨ hasNameOfField slot It = true) →
          blocks[i]? = some "") := by
  induction elems generalizing decls with
  | nil =>
    rw [printFieldDecls] at h
    cases h
    exact ⟨[], rfl, rfl, fun i It hi => by simp at hi⟩
  | cons t ts ih =>
    rw [printFieldDecls] at h
    split at h
    · cases h
    · rename_i block hblock
      cases hr : printFieldDecls slot ts with
      | none => rw [hr] at h; cases h
      | some r =>
        rw [hr] at h
        simp only [Option.map_some', Option.some.injEq] at h
        rcases ih r hr with ⟨blocks, hlen, hjoin, hspec⟩
        refine ⟨block :: blocks, by simp [hlen], by rw [← h, hjoin, join_cons], ?_⟩
        intro i It hi
        cases i with
        | succ k =>
          simp only [List.getElem?_cons_succ] at hi ⊢
          exact hspec k It hi
        | zero =>
          simp only [List.getElem?_cons_zero, Option.some.injEq] at hi ⊢
          subst hi
          refine ⟨?_, ?_, ?_⟩
          · intro harr
            rw [isStructTy_of_isArrayTy _ harr, harr] at hblock
            simp only [Bool.false_and, Bool.false_eq_true, if_false, if_true] at hblock
            cases ha : printArrType (stripPointers t) with
            | none => rw [ha] at hblock; cases hblock
            | some d =>
              rw [ha] at hblock
              simp only [Option.map_some', Option.some.injEq] at hblock
              exact ⟨d, rfl, hblock.symm⟩
          · intro hs hn
            rw [hs, hn] at hblock
            simp only [Bool.not_false, Bool.and_self, if_true] at hblock
            cases ha : printStructType slot (stripPointers t) with
            | none => rw [ha] at hblock; cases hblock
            | some d =>
              rw [ha] at hblock
              simp only [Option.map_some', Option.some.injEq] at hblock
              exact ⟨d, rfl, hblock.symm⟩
          · intro harr hc
            have hcond : ((stripPointers t).isStructTy && !hasNameOfField slot t) = false := by
              rcases hc with hc | hc <;> simp [hc]
            rw [hcond, harr] at hblock
            simp only [Bool.false_eq_true, if_false, Option.some.injEq] at hblock
            exact hblock.symm

/-- C14, as the specification states it, fails: for the named struct `S` with
two fields of the same type, four 8-bit integers, one call of
`printStructType` writes the declaration of `i8arr` twice. -/
theorem printStructType_declares_twice :
    printStructType (fun _ => true)
        (.struct "S" false false [.array (.integer 8) 4, .array (.integer 8) 4]) =
      some ("type i8arr is array (1..4) of i8;\n" ++ "type i8arr is array (1..4) of i8;\n"
        ++ "type S is record\ne0 : i8arr;\ne1 : i8arr;\nend record;") ∧
    toName (.array (.integer 8) 4) = some "i8arr" := by
  constructor
  · simp [printStructType, printFieldDecls, printMembers, stripPointers, Ty.isStructTy,
      Ty.isArrayTy, Ty.hasName, printArrType, printType, toName, accessPrefix, hasNameOfField]
    decide
  · decide

/-- C14, amended: the declarations that one call of `printStructType` writes
before the struct's own record are one block per field, in field order: for a
field whose base is an array the declaration of that array, for a field
whose base is a struct for which the test of line 211 finds no name the whole
text of `printStructType` for it, and nothing for another field.  Nothing is
left out because it was written before: two fields with the same array type
give the same declaration twice. -/
theorem printStructType_decls_per_field (slot : Ty → Bool) (name : String)
    (literal opaqueBody : Bool) (elems : List Ty) (out : String)
    (hout : printStructType slot (.struct name literal opaqueBody elems) = some out) :
    ∃ (blocks : List String) (nm members : String),
      blocks.length = elems.length ∧
      out = String.join blocks ++ "type " ++ nm ++ " is record\n" ++ members ++ "end record;" ∧
      (∀ (i : Nat) (It : Ty), elems[i]? = some It →
        ((stripPointers It).isArrayTy = true →
          ∃ d, printArrType (stripPointers It) = some d ∧ blocks[i]? = some (d ++ "\n")) ∧
        ((stripPointers It).isStructTy = true → hasNameOfField slot It = false →
          ∃ d, printStructType slot (stripPointers It) = some d ∧
            blocks[i]? = some (d ++ "\n")) ∧
        ((stripPointers It).isArrayTy = false →
          ((stripPointers It).isStructTy = false ∨ hasNameOfField slot It = true) →
          blocks[i]? = some "")) ∧
      (∀ (i j : Nat) (It Jt : Ty), elems[i]? = some It → elems[j]? = some Jt →
        (stripPointers It).isArrayTy = true → stripPointers It = stripPointers Jt →
        ∃ d, blocks[i]? = some d ∧ blocks[j]? = some d ∧ d ≠ "") := by
  rcases printStructType_some slot name literal opaqueBody elems out hout with
    ⟨decls, nm, members, hd, _, _, hout'⟩
  rcases printFieldDecls_blocks slot elems decls hd with ⟨blocks, hlen, hjoin, hspec⟩
  refine ⟨blocks, nm, members, hlen, by rw [hout', hjoin], hspec, ?_⟩
  intro i j It Jt hi hj harr heq
  rcases (hspec i It hi).1 harr with ⟨d, hd1, hb1⟩
  rcases (hspec j Jt hj).1 (heq ▸ harr) with ⟨d2, hd2, hb2⟩
  rw [← heq, hd1] at hd2
  cases hd2
  refine ⟨d ++ "\n", hb1, hb2, ?_⟩
  intro he
  have hdata := congrArg String.data he
  simp [String.data_append] at hdata

theorem printStructType_decls_per_field_witness :
    ∃ (blocks : List String) (nm members : String),
      blocks.length = [Ty.array (.integer 8) 4, Ty.array (.integer 8) 4].length ∧
      "type i8arr is array (1..4) of i8;\ntype i8arr is array (1..4) of i8;\ntype S is record\ne0 : i8arr;\ne1 : i8arr;\nend record;" =
        String.join blocks ++ "type " ++ nm ++ " is record\n" ++ members ++ "end record;" ∧
      (∀ (i j : Nat) (It Jt : Ty),
        [Ty.array (.integer 8) 4, Ty.array (.integer 8) 4][i]? = some It →
        [Ty.array (.integer 8) 4, Ty.array (.integer 8) 4][j]? = some Jt →
        (stripPointers It).isArrayTy = true → stripPointers It = stripPointers Jt →
        ∃ d, blocks[i]? = some d ∧ blocks[j]? = some d ∧ d ≠ "") := by
  rcases printStructType_decls_per_field (fun _ => true) "S" false false
    [.array (.integer 8) 4, .array (.integer 8) 4]
    "type i8arr is array (1..4) of i8;\ntype i8arr is array (1..4) of i8;\ntype S is record\ne0 : i8arr;\ne1 : i8arr;\nend record;"
    (by
      simp [printStructType, printFieldDecls, printMembers, stripPointers, Ty.isStructTy,
        Ty.isArrayTy, Ty.hasName, printArrType, printType, toName, accessPrefix,
        hasNameOfField]
      decide) with ⟨blocks, nm, members, h1, h2, _, h4⟩
  exact ⟨blocks, nm, members, h1, h2, h4⟩

/-! ## The unit name -/

theorem find_last_of_from_not_mem (c : Char) (s : List Char) (pos last : Nat)
    (h : c ∉ s) : find_last_of_from c s pos last = last := by
  induction s generalizing pos last with
  | nil => rfl
  | cons d ds ih =>
    have hd : d ≠ c := fun e => h (e ▸ List.mem_cons_self _ _)
    rw [find_last_of_from, if_neg hd]
    exact ih _ _ (fun hm => h (List.mem_cons_of_mem _ hm))

theorem find_last_of_from_append (c : Char) (a b : List Char) (pos last : Nat)
    (h : c ∉ b) : find_last_of_from c (a ++ c :: b) pos last = pos + a.length := by
  induction a generalizing pos last with
  | nil =>
    rw [List.nil_append, find_last_of_from, if_pos rfl, find_last_of_from_not_mem c b _ _ h]
    rfl
  | cons d ds ih =>
    rw [List.cons_append, find_last_of_from, ih, List.length_cons]
    omega

theorem subSize_wrap (m a : Nat) (hm : 1 < m) (ha : a < m - 1) :
    ((a + m - (m - 1) % m) % m + m - 1 % m) % m = a := by
  have e1 : (m - 1) % m = m - 1 := Nat.mod_eq_of_lt (by omega)
  have e2 : a + m - (m - 1) = a + 1 := by omega
  have e3 : (a + 1) % m = a + 1 := Nat.mod_eq_of_lt (by omega)
  have e4 : 1 % m = 1 := Nat.mod_eq_of_lt hm
  have e5 : a + 1 + m - 1 = a + m := by omega
  rw [e1, e2, e3, e4, e5, Nat.add_mod_right]
  exact Nat.mod_eq_of_lt (by omega)

/-- C19, at the failing input: for the output path `out.ads`, which has a
period and no `/`, `find_last_of("/")` is `npos`, so the condition
`last_dot > last_slash` of the assertion of line 414 is false.  This is so
for every path `a.b` without a `/` (of a size below `npos`, `b` being free of
periods): the assertion fails, and the `size_t` arithmetic of line 416, when
it is reached, wraps around to `substr(0, last_dot)`, the text `a` before the
last period. -/
theorem stemAssertion_fails_without_slash (a b : List Char)
    (hslash : '/' ∉ a ++ '.' :: b) (hdot : '.' ∉ b) (hlen : (a ++ '.' :: b).length < npos) :
    (find_last_of (a ++ '.' :: b) '/' = npos ∧
      find_last_of (a ++ '.' :: b) '.' = a.length ∧
      stemAssertion (String.mk (a ++ '.' :: b)) = false ∧
      unitName (String.mk (a ++ '.' :: b)) = some (String.mk a)) ∧
    (find_last_of "out.ads".data '/' = npos ∧ find_last_of "out.ads".data '.' = 3 ∧
      stemAssertion "out.ads" = false ∧ unitName "out.ads" = some "out") ∧
    (stemAssertion "dir/out.ads" = true ∧ unitName "dir/out.ads" = some "out") := by
  have h1 : find_last_of (a ++ '.' :: b) '/' = npos :=
    find_last_of_from_not_mem '/' _ 0 npos hslash
  have h2 : find_last_of (a ++ '.' :: b) '.' = a.length := by
    unfold find_last_of
    rw [find_last_of_from_append '.' a b 0 npos hdot, Nat.zero_add]
  have hla : a.length < npos := by
    rw [List.length_append] at hlen
    omega
  refine ⟨⟨h1, h2, ?_, ?_⟩, by decide, by decide⟩
  · unfold stemAssertion
    rw [h1, h2]
    simp only [gt_iff_lt, decide_eq_false_iff_not, not_lt]
    omega
  · unfold unitName
    simp only [h1, h2]
    have e1 : addSize npos 1 = 0 := by decide
    have e2 : subSize (subSize a.length npos) 1 = a.length :=
      subSize_wrap (2 ^ 64) a.length (by decide) hla
    rw [e1, e2]
    unfold substr
    rw [if_neg (by omega)]
    simp

theorem stemAssertion_fails_without_slash_witness :
    find_last_of "pkg.ads".data '/' = npos ∧ find_last_of "pkg.ads".data '.' = 3 ∧
      stemAssertion "pkg.ads" = false ∧ unitName "pkg.ads" = some "pkg" :=
  (stemAssertion_fails_without_slash "pkg".data "ads".data (by decide) (by decide)
    (by decide)).1

/-! ## The primitive subtypes -/

theorem digitChar_toNat : ∀ d : Nat, d < 10 → (Nat.digitChar d).toNat - 48 = d := by
  decide

theorem digitChar_ne_space : ∀ d : Nat, d < 10 → Nat.digitChar d ≠ ' ' := by
  decide

theorem foldl_decimal (value : Nat) (digits : List Char) :
    digits.foldl (fun value c => 10 * value + (c.toNat - 48)) value =
      value * 10 ^ digits.length + decimalValue digits := by
  induction digits generalizing value with
  | nil => simp [decimalValue]
  | cons c cs ih =>
    unfold decimalValue
    rw [List.foldl_cons, List.foldl_cons, ih, ih (10 * 0 + (c.toNat - 48)), List.length_cons,
      Nat.pow_succ]
    ring

theorem decimalValue_toDigitsCore (fuel n : Nat) (acc : List Char) (h : n < fuel) :
    decimalValue (Nat.toDigitsCore 10 fuel n acc) = n * 10 ^ acc.length + decimalValue acc := by
  induction fuel generalizing n acc with
  | zero => omega
  | succ fuel ih =>
    have hd : decimalValue (Nat.digitChar (n % 10) :: acc) =
        n % 10 * 10 ^ acc.length + decimalValue acc := by
      unfold decimalValue
      rw [List.foldl_cons, foldl_decimal, digitChar_toNat _ (Nat.mod_lt _ (by decide))]
      simp [decimalValue]
    rw [Nat.toDigitsCore]
    split
    · rename_i h0
      rw [hd]
      have : n % 10 = n := Nat.mod_eq_of_lt (by omega)
      rw [this]
    · rename_i h0
      rw [ih (n / 10) _ (by omega), hd, List.length_cons, Nat.pow_succ]
      have := Nat.div_add_mod n 10
      calc n / 10 * (10 ^ acc.length * 10) + (n % 10 * 10 ^ acc.length + decimalValue acc)
          = (10 * (n / 10) + n % 10) * 10 ^ acc.length + decimalValue acc := by ring
        _ = n * 10 ^ acc.length + decimalValue acc := by rw [this]

theorem decimalValue_repr (n : Nat) : decimalValue (Nat.repr n).data = n := by
  unfold Nat.repr Nat.toDigits
  rw [show (Nat.toDigitsCore 10 (n + 1) n []).asString.data = Nat.toDigitsCore 10 (n + 1) n []
    from rfl, decimalValue_toDigitsCore _ _ _ (by omega)]
  simp [decimalValue]

theorem repr_eq_iff (n m : Nat) : Nat.repr n = Nat.repr m ↔ n = m := by
  constructor
  · intro h
    have := congrArg (fun s => decimalValue s.data) h
    simpa [decimalValue_repr] using this
  · intro h
    rw [h]

theorem repr_ne_space (n : Nat) : ∀ c ∈ (Nat.repr n).data, c ≠ ' ' := by
  have core : ∀ (fuel n : Nat) (ds : List Char), (∀ c ∈ ds, c ≠ ' ') →
      ∀ c ∈ Nat.toDigitsCore 10 fuel n ds, c ≠ ' ' := by
    intro fuel
    induction fuel with
    | zero =>
      intro n ds h
      simpa [Nat.toDigitsCore] using h
    | succ fuel ih =>
      intro n ds h
      have hd : ∀ c ∈ Nat.digitChar (n % 10) :: ds, c ≠ ' ' := by
        intro c hc
        rcases List.mem_cons.1 hc with rfl | hc
        · exact digitChar_ne_space _ (Nat.mod_lt _ (by decide))
        · exact h c hc
      rw [Nat.toDigitsCore]
      split
      · exact hd
      · exact ih _ _ hd
  unfold Nat.repr Nat.toDigits
  exact core _ _ _ (by simp)

theorem eq_of_append_space (x y r s : List Char) (hx : ∀ c ∈ x, c ≠ ' ')
    (hy : ∀ c ∈ y, c ≠ ' ') (h : x ++ ' ' :: r = y ++ ' ' :: s) : x = y := by
  induction x generalizing y with
  | nil =>
    cases y with
    | nil => rfl
    | cons d ds =>
      simp only [List.nil_append, List.cons_append, List.cons.injEq] at h
      exact absurd h.1.symm (hy d (List.mem_cons_self _ _))
  | cons c cs ih =>
    cases y with
    | nil =>
      simp only [List.nil_append, List.cons_append, List.cons.injEq] at h
      exact absurd h.1 (hx c (List.mem_cons_self _ _))
    | cons d ds =>
      simp only [List.cons_append, List.cons.injEq] at h
      rw [h.1, ih ds (fun c hc => hx c (List.mem_cons_of_mem _ hc))
        (fun c hc => hy c (List.mem_cons_of_mem _ hc)) h.2]

theorem primitiveLines_tokens (l : String) (hl : l ∈ primitiveLines) :
    ∃ tok rest : String,
      tok ∈ ["i1", "i8", "u8", "i16", "u16", "i32", "u32", "i64", "u64", "double"] ∧
      l = "subtype " ++ tok ++ " " ++ rest ∧ ∀ c ∈ tok.data, c ≠ ' ' := by
  simp only [primitiveLines, List.mem_cons, List.mem_singleton, List.not_mem_nil,
    or_false] at hl
  rcases hl with rfl | rfl | rfl | rfl | rfl | rfl | rfl | rfl | rfl | rfl
  · exact ⟨"i1", "is Interfaces.C.c_bool;\n", by decide, by decide, by decide⟩
  · exact ⟨"i8", "is Interfaces.C.char;\n", by decide, by decide, by decide⟩
  · exact ⟨"u8", "is Interfaces.C.unsigned_char;\n", by decide, by decide, by decide⟩
  · exact ⟨"i16", "is Interfaces.C.short;\n", by decide, by decide, by decide⟩
  · exact ⟨"u16", "is Interfaces.C.unsigned_short;\n", by decide, by decide, by decide⟩
  · exact ⟨"i32", "is Interfaces.C.int;\n", by decide, by decide, by decide⟩
  · exact ⟨"u32", "is Interfaces.C.unsigned;\n", by decide, by decide, by decide⟩
  · exact ⟨"i64", "is Interfaces.C.long;\n", by decide, by decide, by decide⟩
  · exact ⟨"u64", "is Interfaces.C.unsigned_long;\n", by decide, by decide, by decide⟩
  · exact ⟨"double", "is Interfaces.C.double;\n", by decide, by decide, by decide⟩

/-- A line `subtype <name> is <target>;` of the primitive block, for a
`name` without a space, is the line of the token `name`. -/
theorem token_of_primitive_line (name target : String) (hname : ∀ c ∈ name.data, c ≠ ' ')
    (h : ("subtype " ++ name ++ " is " ++ target ++ ";\n") ∈ primitiveLines) :
    name ∈ ["i1", "i8", "u8", "i16", "u16", "i32", "u32", "i64", "u64", "double"] := by
  rcases primitiveLines_tokens _ h with ⟨tok, rest, htok, hline, hsp⟩
  have hdata := congrArg String.data hline
  simp only [String.data_append, List.append_assoc] at hdata
  have hcancel := List.append_cancel_left hdata
  have hsplit : name.data ++ ' ' :: ("is ".data ++ (target.data ++ ";\n".data)) =
      tok.data ++ ' ' :: rest.data := hcancel
  have hnt : name = tok := String.ext (eq_of_append_space _ _ _ _ hname hsp hsplit)
  rw [hnt]
  exact htok

theorem integer_token_mem (N : Nat)
    (h : ("i" ++ Nat.repr N) ∈
      ["i1", "i8", "u8", "i16", "u16", "i32", "u32", "i64", "u64", "double"]) :
    N ∈ [1, 8, 16, 32, 64] := by
  have key : ∀ M : Nat, "i" ++ Nat.repr N = "i" ++ Nat.repr M → N = M := by
    intro M hM
    have hdata := congrArg String.data hM
    simp only [String.data_append] at hdata
    exact (repr_eq_iff N M).1 (String.ext (List.append_cancel_left hdata))
  have other : ∀ s : String, s.data.head? ≠ some 'i' → "i" ++ Nat.repr N ≠ s := by
    intro s hs he
    apply hs
    rw [← he, String.data_append]
    rfl
  simp only [List.mem_cons, List.mem_singleton, List.not_mem_nil, or_false] at h ⊢
  rcases h with h | h | h | h | h | h | h | h | h | h
  · exact Or.inl (key 1 h)
  · exact Or.inr (Or.inl (key 8 h))
  · exact absurd h (other _ (by decide))
  · exact Or.inr (Or.inr (Or.inl (key 16 h)))
  · exact absurd h (other _ (by decide))
  · exact Or.inr (Or.inr (Or.inr (Or.inl (key 32 h))))
  · exact absurd h (other _ (by decide))
  · exact Or.inr (Or.inr (Or.inr (Or.inr (key 64 h))))
  · exact absurd h (other _ (by decide))
  · exact absurd h (other _ (by decide))

theorem integer_name_ne_space (N : Nat) : ∀ c ∈ ("i" ++ Nat.repr N).data, c ≠ ' ' := by
  intro c hc
  rw [String.data_append, List.mem_append] at hc
  rcases hc with hc | hc
  · revert c
    decide
  · exact repr_ne_space N c hc

theorem integer_line_iff (N : Nat) :
    (∃ target : String,
        ("subtype " ++ ("i" ++ Nat.repr N) ++ " is " ++ target ++ ";\n") ∈ primitiveLines) ↔
      N ∈ [1, 8, 16, 32, 64] := by
  constructor
  · rintro ⟨target, h⟩
    exact integer_token_mem N (token_of_primitive_line _ target (integer_name_ne_space N) h)
  · intro h
    simp only [List.mem_cons, List.mem_singleton, List.not_mem_nil, or_false] at h
    rcases h with rfl | rfl | rfl | rfl | rfl
    · exact ⟨"Interfaces.C.c_bool", by decide⟩
    · exact ⟨"Interfaces.C.char", by decide⟩
    · exact ⟨"Interfaces.C.short", by decide⟩
    · exact ⟨"Interfaces.C.int", by decide⟩
    · exact ⟨"Interfaces.C.long", by decide⟩

/-- C17, as the specification states it, fails: the primitive block has no
line `subtype i128 is ...;` for the integer type of width 128, which `toName`
names `i128`, and no line `subtype float is ...;` for the type `float`. -/
theorem printPrimitiveTypes_misses_tokens :
    ¬ (∀ N : Nat, ∃ name target : String, toName (.integer N) = some name ∧
        ("subtype " ++ name ++ " is " ++ target ++ ";\n") ∈ primitiveLines) ∧
    toName .float = some "float" ∧
    ¬ (∃ target : String,
        ("subtype " ++ "float" ++ " is " ++ target ++ ";\n") ∈ primitiveLines) := by
  refine ⟨?_, rfl, ?_⟩
  · intro h
    rcases h 128 with ⟨name, target, hn, hl⟩
    cases hn
    have := (integer_line_iff 128).1 ⟨target, hl⟩
    revert this
    decide
  · rintro ⟨target, h⟩
    have := token_of_primitive_line "float" target (by decide) h
    revert this
    decide

/-- C17, amended: the primitive block, the text of `printPrimitiveTypes`, has
a line `subtype <toName t> is ...;` for an integer type `t` exactly when its
width is 1, 8, 16, 32 or 64, and for a floating-point type `t` that `toName`
accepts exactly when `t` is `double`. -/
theorem printPrimitiveTypes_lines :
    (∀ (N : Nat) (name : String), toName (.integer N) = some name →
      ((∃ target : String,
          ("subtype " ++ name ++ " is " ++ target ++ ";\n") ∈ primitiveLines) ↔
        N ∈ [1, 8, 16, 32, 64])) ∧
    (∀ (t : Ty) (name : String), t ∈ floatingPointTypes → toName t = some name →
      ((∃ target : String,
          ("subtype " ++ name ++ " is " ++ target ++ ";\n") ∈ primitiveLines) ↔
        name = "double")) ∧
    toName .double = some "double" ∧
    printPrimitiveTypes = String.join primitiveLines := by
  refine ⟨?_, ?_, rfl, rfl⟩
  · intro N name hn
    cases hn
    exact integer_line_iff N
  · intro t name ht hn
    have hmem : name ∈ ["half", "bfloat", "float", "double", "x86_fp80", "fp128",
        "ppc_fp128"] := by
      simp only [floatingPointTypes, List.mem_cons, List.mem_singleton, List.not_mem_nil,
        or_false] at ht
      rcases ht with rfl | rfl | rfl | rfl | rfl | rfl | rfl <;> cases hn <;> decide
    constructor
    · rintro ⟨target, h⟩
      have hsp : ∀ c ∈ name.data, c ≠ ' ' := by
        simp only [List.mem_cons, List.mem_singleton, List.not_mem_nil, or_false] at hmem
        rcases hmem with rfl | rfl | rfl | rfl | rfl | rfl | rfl <;> decide
      have htok := token_of_primitive_line name target hsp h
      simp only [List.mem_cons, List.mem_singleton, List.not_mem_nil, or_false] at hmem
      rcases hmem with rfl | rfl | rfl | rfl | rfl | rfl | rfl
      · exact absurd htok (by decide)
      · exact absurd htok (by decide)
      · exact absurd htok (by decide)
      · rfl
      · exact absurd htok (by decide)
      · exact absurd htok (by decide)
      · exact absurd htok (by decide)
    · intro h
      subst h
      exact ⟨"Interfaces.C.double", by decide⟩
/-! ## Struct types that refer to themselves, and those that do not -/

theorem elementsOf_node :
    elementsOf nodeTable (.struct "Node" false false []) =
      [.integer 32, .pointer (.struct "Node" false false [])] := rfl

theorem toNameIn_node_running :
    ∀ fuel : Nat, toNameIn nodeTable fuel (.struct "Node" false false []) = .running ∧
      toNameIn nodeTable fuel (.pointer (.struct "Node" false false [])) = .running := by
  intro fuel
  induction fuel with
  | zero => exact ⟨rfl, rfl⟩
  | succ fuel ih =>
    constructor
    · rw [toNameIn, elementsOf_node]
      simp only [toNameLoopIn, ih.2]
      cases fuel <;> rfl
    · rw [toNameIn, ih.1]
      rfl

theorem printMembersIn_node_running (fuel : Nat) :
    printMembersIn nodeTable fuel [.integer 32, .pointer (.struct "Node" false false [])] 0 =
      .running := by
  simp only [printMembersIn, stripPointers, Ty.isArrayTy, Ty.isStructTy,
    Bool.or_self, Bool.false_eq_true, if_false, Bool.or_true, if_true,
    (toNameIn_node_running fuel).1]
  cases fuel with
  | zero => rfl
  | succ fuel =>
    cases fuel <;> rfl

/-- C11 (back-reference termination), at the failing input: for the
linked-list node `%Node = type { i32, %Node* }` the call `printStructType(Node)`
is not over within any bound on the depth of its calls, whatever the test of
line 211 answers for the pointer field.  The member of the second field is
written with `toName(T)`, `T` being `%Node` itself, and `toName` goes through
the fields of a struct whether it has a name or not: `toName(Node)` calls
`toName(Node*)`, which calls `toName(Node)`. -/
theorem printStructTypeIn_node_running (slot : Ty → Bool) (fuel : Nat) :
    printStructTypeIn slot nodeTable fuel nodeType = .running ∧
      toNameIn nodeTable fuel nodeType = .running ∧
      toNameIn nodeTable fuel (.pointer nodeType) = .running ∧
      elementsOf nodeTable nodeType = [.integer 32, .pointer nodeType] := by
  refine ⟨?_, (toNameIn_node_running fuel).1, (toNameIn_node_running fuel).2, rfl⟩
  unfold nodeType
  induction fuel with
  | zero => rfl
  | succ fuel ih =>
    rw [printStructTypeIn, elementsOf_node, printMembersIn_node_running]
    have hdecl : printFieldDeclsIn slot nodeTable fuel (printStructTypeIn slot nodeTable fuel)
        [.integer 32, .pointer (.struct "Node" false false [])] = .running ∨
        printFieldDeclsIn slot nodeTable fuel (printStructTypeIn slot nodeTable fuel)
        [.integer 32, .pointer (.struct "Node" false false [])] = .wrote "" := by
      cases hs : slot (.pointer (.struct "Node" false false [])) with
      | true =>
        right
        simp [printFieldDeclsIn, stripPointers, Ty.isStructTy, Ty.isArrayTy, hasNameOfField,
          hs, Outcome.bind]
      | false =>
        left
        simp [printFieldDeclsIn, stripPointers, Ty.isStructTy, Ty.isArrayTy, hasNameOfField,
          hs, Outcome.bind, ih]
    rcases hdecl with h | h
    · rw [h]
      rfl
    · rw [h]
      rfl

theorem depth_stripPointers_le (t : Ty) : (stripPointers t).depth ≤ t.depth := by
  cases t with
  | pointer elem =>
    have ih := depth_stripPointers_le elem
    rw [stripPointers, Ty.depth]
    omega
  | _ => simp [stripPointers]

theorem unfolds_stripPointers (tbl : StructTable) (t : Ty) (h : t.unfolds tbl) :
    (stripPointers t).unfolds tbl := by
  cases t with
  | pointer elem =>
    rw [Ty.unfolds] at h
    rw [stripPointers]
    exact unfolds_stripPointers tbl elem h
  | _ => simpa [stripPointers] using h

theorem elementsOf_unfolds (tbl : StructTable) (name : String) (literal opaqueBody : Bool)
    (elems : List Ty) (h : (Ty.struct name literal opaqueBody elems).unfolds tbl) :
    elementsOf tbl (.struct name literal opaqueBody elems) = elems := by
  rw [Ty.unfolds] at h
  rw [elementsOf]
  by_cases hn : (Ty.struct name literal opaqueBody elems).hasName = true
  · rw [if_pos hn]
    exact h.1 hn
  · rw [if_neg hn]

mutual
theorem toNameIn_eq (tbl : StructTable) (t : Ty) (h : t.unfolds tbl) (fuel : Nat)
    (hf : t.depth < fuel) : toNameIn tbl fuel t = .ofOption (toName t) := by
  cases fuel with
  | zero => omega
  | succ f =>
    cases t with
    | pointer elem =>
      rw [Ty.unfolds] at h
      rw [Ty.depth] at hf
      rw [toNameIn, toName, toNameIn_eq tbl elem h f (by omega)]
      cases toName elem <;> rfl
    | array elem n =>
      rw [Ty.unfolds] at h
      rw [Ty.depth] at hf
      rw [toNameIn, toName, toNameIn_eq tbl elem h f (by omega)]
      cases toName elem <;> rfl
    | struct name literal opaqueBody elems =>
      rw [toNameIn, elementsOf_unfolds tbl name literal opaqueBody elems h, toName]
      rw [Ty.unfolds] at h
      rw [Ty.depth] at hf
      exact toNameLoopIn_eq tbl elems h.2 f (by omega) ""
    | _ => rfl
theorem toNameLoopIn_eq (tbl : StructTable) (ts : List Ty) (h : fieldsUnfold tbl ts)
    (fuel : Nat) (hf : depthOfFields ts ≤ fuel) (acc : String) :
    toNameLoopIn (toNameIn tbl fuel) ts acc = .ofOption (toNameLoop ts acc) := by
  cases ts with
  | nil => rfl
  | cons t ts =>
    rw [fieldsUnfold] at h
    rw [depthOfFields] at hf
    rw [toNameLoopIn, toNameLoop, toNameIn_eq tbl t h.1 fuel (by omega)]
    cases ht : toName t with
    | none => rfl
    | some s =>
      simp only [Outcome.ofOption, Outcome.bind]
      exact toNameLoopIn_eq tbl ts h.2 fuel (by omega) (acc ++ s)
end

theorem printTypeIn_eq (tbl : StructTable) (t : Ty) (h : t.unfolds tbl) (fuel : Nat)
    (hf : t.depth + 2 ≤ fuel) : printTypeIn tbl fuel t = .ofOption (printType t) := by
  cases fuel with
  | zero => omega
  | succ f =>
    cases t with
    | pointer elem =>
      rw [Ty.unfolds] at h
      rw [Ty.depth] at hf
      rw [printTypeIn, printType, printTypeIn_eq tbl elem h f (by omega)]
      cases printType elem <;> rfl
    | array elem n =>
      rw [Ty.unfolds] at h
      rw [Ty.depth] at hf
      rw [printTypeIn, printType, printTypeIn_eq tbl elem h f (by omega)]
      cases printType elem <;> rfl
    | struct name literal opaqueBody elems =>
      rw [printTypeIn, printType]
      by_cases hc : literal = false ∧ name ≠ ""
      · rw [if_pos hc, if_pos hc]
      · rw [if_neg hc, if_neg hc]
        exact toNameIn_eq tbl _ h f (by omega)
    | function ret params => rfl
    | fixedVector elem n => rfl
    | scalableVector elem n => rfl
    | _ =>
      cases f with
      | zero => omega
      | succ g => rfl

theorem printArrTypeIn_eq (tbl : StructTable) (t : Ty) (h : t.unfolds tbl) (fuel : Nat)
    (hf : t.depth + 2 ≤ fuel) : printArrTypeIn tbl fuel t = .ofOption (printArrType t) := by
  unfold printArrTypeIn printArrType
  rw [toNameIn_eq tbl t h fuel (by omega), printTypeIn_eq tbl t h fuel hf]
  cases toName t with
  | none => rfl
  | some n => cases printType t <;> rfl

theorem printMembersIn_eq (tbl : StructTable) (ts : List Ty) (h : fieldsUnfold tbl ts)
    (fuel : Nat) (hf : depthOfFields ts + 1 ≤ fuel) (x : Nat) :
    printMembersIn tbl fuel ts x = .ofOption (printMembers ts x) := by
  induction ts generalizing x with
  | nil => rfl
  | cons It rest ih =>
    rw [fieldsUnfold] at h
    rw [depthOfFields] at hf
    have hs := unfolds_stripPointers tbl It h.1
    have hd := depth_stripPointers_le It
    rw [printMembersIn, printMembers, ih h.2 (by omega) (x + 1),
      toNameIn_eq tbl _ hs fuel (by omega), printTypeIn_eq tbl _ hs fuel (by omega)]
    cases ((stripPointers It).isArrayTy || (stripPointers It).isStructTy) with
    | true =>
      simp only [if_true]
      cases toName (stripPointers It) with
      | none => rfl
      | some ty => cases printMembers rest (x + 1) <;> rfl
    | false =>
      simp only [Bool.false_eq_true, if_false]
      cases printType (stripPointers It) with
      | none => rfl
      | some ty => cases printMembers rest (x + 1) <;> rfl

theorem printFieldDeclsIn_eq (slot : Ty → Bool) (tbl : StructTable) (fuel : Nat)
    (call : Ty → Outcome) (ts : List Ty) (h : fieldsUnfold tbl ts)
    (hf : depthOfFields ts + 1 ≤ fuel)
    (hcall : ∀ t : Ty, t.unfolds tbl → t.depth + 2 ≤ fuel →
      call t = .ofOption (printStructType slot t)) :
    printFieldDeclsIn slot tbl fuel call ts = .ofOption (printFieldDecls slot ts) := by
  induction ts with
  | nil =>
    rw [printFieldDeclsIn, printFieldDecls]
    rfl
  | cons It rest ih =>
    rw [fieldsUnfold] at h
    rw [depthOfFields] at hf
    have hs := unfolds_stripPointers tbl It h.1
    have hd := depth_stripPointers_le It
    rw [printFieldDeclsIn, printFieldDecls, ih h.2 (by omega),
      hcall _ hs (by omega), printArrTypeIn_eq tbl _ hs fuel (by omega)]
    cases ((stripPointers It).isStructTy && !hasNameOfField slot It) with
    | true =>
      simp only [if_true]
      cases printStructType slot (stripPointers It) with
      | none => rfl
      | some d => cases printFieldDecls slot rest <;> rfl
    | false =>
      simp only [Bool.false_eq_true, if_false]
      cases (stripPointers It).isArrayTy with
      | true =>
        simp only [if_true]
        cases printArrType (stripPointers It) with
        | none => rfl
        | some d => cases printFieldDecls slot rest <;> rfl
      | false =>
        simp only [Bool.false_eq_true, if_false]
        cases printFieldDecls slot rest <;> rfl

theorem printStructTypeIn_eq (slot : Ty → Bool) (tbl : StructTable) (fuel : Nat) (t : Ty)
    (h : t.unfolds tbl) (hf : t.depth + 2 ≤ fuel) :
    printStructTypeIn slot tbl fuel t = .ofOption (printStructType slot t) := by
  induction fuel generalizing t with
  | zero => omega
  | succ f ih =>
    cases t with
    | struct name literal opaqueBody elems =>
      have hu := h
      rw [Ty.unfolds] at hu
      rw [Ty.depth] at hf
      rw [printStructTypeIn, elementsOf_unfolds tbl name literal opaqueBody elems h,
        printStructType,
        printFieldDeclsIn_eq slot tbl f _ elems hu.2 (by omega) (fun t ht hd => ih t ht hd),
        printMembersIn_eq tbl elems hu.2 f (by omega) 0,
        toNameIn_eq tbl _ h f (by rw [Ty.depth]; omega)]
      cases printFieldDecls slot elems with
      | none => rfl
      | some decls =>
        cases (Ty.struct name literal opaqueBody elems).hasName with
        | true =>
          simp only [if_true]
          cases printSanitized name with
          | none => rfl
          | some nm => cases printMembers elems 0 <;> rfl
        | false =>
          simp only [Bool.false_eq_true, if_false]
          cases toName (Ty.struct name literal opaqueBody elems) with
          | none => rfl
          | some nm => cases printMembers elems 0 <;> rfl
    | _ => simp [printStructTypeIn, printStructType, Outcome.ofOption]

theorem ofOption_ne_running (o : Option String) : Outcome.ofOption o ≠ .running := by
  cases o <;> intro h <;> cases h

theorem depth_lt_of_mem (It : Ty) (elems : List Ty) (h : It ∈ elems) :
    It.depth < depthOfFields elems := by
  induction elems with
  | nil => cases h
  | cons t ts ih =>
    rw [depthOfFields]
    rcases List.mem_cons.1 h with rfl | hm
    · omega
    · have := ih hm
      omega

/-- C12 (termination on acyclic graphs): for the unfolding `t` of a type of an
acyclic type graph, `toName`, `printType` and `printStructType` return: with
calls nested no deeper than the structural depth of `t` plus two, their
outcome is the value of the total functions `toName`, `printType` and
`printStructType` on `t`, and is never that of a call still running.  Every
recursive call is on a type of strictly smaller depth: the pointee, the array
element, a field, or a field with its pointers removed. -/
theorem printers_return_on_unfoldings (slot : Ty → Bool) (tbl : StructTable) (t : Ty)
    (fuel : Nat) (h : t.unfolds tbl) (hf : t.depth + 2 ≤ fuel) :
    (toNameIn tbl fuel t = .ofOption (toName t) ∧
      printTypeIn tbl fuel t = .ofOption (printType t) ∧
      printStructTypeIn slot tbl fuel t = .ofOption (printStructType slot t)) ∧
    (toNameIn tbl fuel t ≠ .running ∧ printTypeIn tbl fuel t ≠ .running ∧
      printStructTypeIn slot tbl fuel t ≠ .running) ∧
    (∀ elem : Ty, t = .pointer elem → elem.depth < t.depth) ∧
    (∀ (elem : Ty) (n : Nat), t = .array elem n → elem.depth < t.depth) ∧
    (∀ (name : String) (literal opaqueBody : Bool) (elems : List Ty) (It : Ty),
      t = .struct name literal opaqueBody elems → It ∈ elems →
        It.depth < t.depth ∧ (stripPointers It).depth < t.depth) := by
  have h1 := toNameIn_eq tbl t h fuel (by omega)
  have h2 := printTypeIn_eq tbl t h fuel hf
  have h3 := printStructTypeIn_eq slot tbl fuel t h hf
  refine ⟨⟨h1, h2, h3⟩, ⟨?_, ?_, ?_⟩, ?_, ?_, ?_⟩
  · rw [h1]
    exact ofOption_ne_running _
  · rw [h2]
    exact ofOption_ne_running _
  · rw [h3]
    exact ofOption_ne_running _
  · rintro elem rfl
    rw [Ty.depth]
    omega
  · rintro elem n rfl
    rw [Ty.depth]
    omega
  · rintro name literal opaqueBody elems It rfl hmem
    have hd := depth_lt_of_mem It elems hmem
    have hs := depth_stripPointers_le It
    rw [Ty.depth]
    omega

theorem printers_return_on_unfoldings_witness :
    printStructTypeIn (fun _ => true)
        (fun name => if name = "B" then [.integer 32]
          else if name = "A" then [.pointer (.struct "B" false false [.integer 32])] else [])
        5 (.struct "A" false false [.pointer (.struct "B" false false [.integer 32])]) =
      .wrote "type A is record\ne0 : access i32;\nend record;" ∧
    printStructTypeIn (fun _ => true)
        (fun name => if name = "B" then [.integer 32]
          else if name = "A" then [.pointer (.struct "B" false false [.integer 32])] else [])
        5 (.struct "A" false false [.pointer (.struct "B" false false [.integer 32])]) =
      .ofOption (printStructType (fun _ => true)
        (.struct "A" false false [.pointer (.struct "B" false false [.integer 32])])) :=
  ⟨by decide,
    (printers_return_on_unfoldings (fun _ => true)
      (fun name => if name = "B" then [.integer 32]
        else if name = "A" then [.pointer (.struct "B" false false [.integer 32])] else [])
      (.struct "A" false false [.pointer (.struct "B" false false [.integer 32])]) 5
      (by simp [Ty.unfolds, fieldsUnfold, Ty.hasName])
      (by decide)).1.2.2⟩

mutual
theorem toName_eq_none_iff (t : Ty) : toName t = none ↔ reachesUnmanaged t = true := by
  cases t with
  | pointer elem =>
    rw [toName, reachesUnmanaged, ← toName_eq_none_iff elem]
    cases toName elem <;> simp
  | array elem n =>
    rw [toName, reachesUnmanaged, ← toName_eq_none_iff elem]
    cases toName elem <;> simp
  | struct name literal opaqueBody elems =>
    rw [toName, reachesUnmanaged]
    exact toNameLoop_eq_none_iff elems ""
  | _ => simp [toName, reachesUnmanaged]
theorem toNameLoop_eq_none_iff (ts : List Ty) (acc : String) :
    toNameLoop ts acc = none ↔ anyReachesUnmanaged ts = true := by
  cases ts with
  | nil => simp [toNameLoop, anyReachesUnmanaged]
  | cons t ts =>
    rw [toNameLoop, anyReachesUnmanaged, Bool.or_eq_true, ← toName_eq_none_iff t]
    cases ht : toName t with
    | none => simp
    | some s =>
      simp only [reduceCtorEq, false_or]
      exact toNameLoop_eq_none_iff ts (acc ++ s)
end

/-- C15, as the specification states it, fails: every type reached from the
linked-list node `%Node = type { i32, %Node* }` is a struct, an integer or a
pointer, and `toName(Node)` neither fails nor returns a name: it is still
running at every bound on the depth of its calls. -/
theorem toNameIn_node_no_result :
    elementsOf nodeTable nodeType = [.integer 32, .pointer nodeType] ∧
      (∀ fuel : Nat, toNameIn nodeTable fuel nodeType ≠ .aborted ∧
        ∀ name : String, toNameIn nodeTable fuel nodeType ≠ .wrote name) := by
  refine ⟨rfl, fun fuel => ?_⟩
  have h := (toNameIn_node_running fuel).1
  unfold nodeType
  rw [h]
  constructor
  · intro e
    cases e
  · intro name e
    cases e

/-- C15, amended: for the unfolding `t` of a type of an acyclic type graph,
`toName` fails exactly when `t`, or a type reached from it through pointee,
array element or struct field positions, is a function type or a vector type,
and returns a name otherwise. -/
theorem toName_fails_iff (tbl : StructTable) (t : Ty) (fuel : Nat)
    (h : t.unfolds tbl) (hf : t.depth < fuel) :
    (toNameIn tbl fuel t = .aborted ↔ reachesUnmanaged t = true) ∧
    (reachesUnmanaged t = false → ∃ name : String, toNameIn tbl fuel t = .wrote name) ∧
    (toName t = none ↔ reachesUnmanaged t = true) ∧
    (reachesUnmanaged t = false → ∃ name : String, toName t = some name) := by
  have h1 := toNameIn_eq tbl t h fuel hf
  have h2 := toName_eq_none_iff t
  rw [h1]
  cases hn : toName t with
  | none =>
    rw [hn] at h2
    have hr : reachesUnmanaged t = true := h2.1 rfl
    simp [Outcome.ofOption, hr]
  | some name =>
    rw [hn] at h2
    have hr : reachesUnmanaged t = false := by
      cases hc : reachesUnmanaged t with
      | false => rfl
      | true => exact absurd (h2.2 hc) (by simp)
    simp [Outcome.ofOption, hr]

theorem toName_fails_iff_witness :
    (toNameIn (fun _ => []) 3 (.pointer (.fixedVector (.integer 8) 4)) = .aborted ↔
      reachesUnmanaged (.pointer (.fixedVector (.integer 8) 4)) = true) ∧
    toNameIn (fun _ => []) 3 (.pointer (.fixedVector (.integer 8) 4)) = .aborted :=
  ⟨(toName_fails_iff (fun _ => []) (.pointer (.fixedVector (.integer 8) 4)) 3
      (by simp [Ty.unfolds]) (by decide)).1, by decide⟩

end LlvmAds
